import Mathlib

/-!
Verification development for the spreadsheet-to-MODS mapper
(`generate_mods.py`): a shallow embedding of the location-path parser
(`LocationParser`), the value splitter (`Mapper._get_data_divs` and the
entry split in `Mapper.add_data`), and the category dispatch
(`Mapper.add_data` and its `_add_*` helpers), together with theorems about
the embedded definitions.

Modelling conventions:
* Python unicode strings are `List Char`; Python `str.find`, slicing
  (including negative indices) and `str.strip` are modelled by `findChar`,
  `pySlice`/`pyIndex` and `pStrip` with Python's exact semantics.
* Python exceptions are `Except` errors; each `raise` site (and each
  possible `IndexError`/`AttributeError` site) maps to a constructor of
  `ParseErr`/`MapErr`.  On the error path the Python objects may retain
  partial mutations; the functional embedding returns only the error.
* The `while` loop of `_get_data_divs` can run forever (its escape
  lookbehind wraps around), so it is embedded with explicit fuel; `none`
  means the fuel ran out.  The parser's loops always terminate (each
  iteration strictly shrinks the string), so they get fuel `length + 1`,
  which is proved sufficient.
-/

namespace ModsGen

/-- Python unicode strings, as lists of characters. -/
abbrev Str := List Char

/-- Characters Python's `str.strip()` removes. -/
def isPySpace (c : Char) : Bool :=
  c = ' ' || c = '\t' || c = '\n' || c = '\r' || c = '\x0b' || c = '\x0c'

/-- Python `s.strip()`: drop whitespace from both ends. -/
def pStrip (s : Str) : Str :=
  ((s.dropWhile isPySpace).reverse.dropWhile isPySpace).reverse

/-- Position of the first occurrence of `c` in `s` (Python `s.find(c)`,
with `none` for Python's `-1`). -/
def findChar (c : Char) : Str → Option Nat
  | [] => none
  | a :: rest => if a = c then some 0 else (findChar c rest).map (· + 1)

/-- Python `s.find(c, start)`. -/
def findFrom (c : Char) (s : Str) (start : Nat) : Option Nat :=
  (findChar c (s.drop start)).map (· + start)

/-- Python's `-1` convention for `find` results. -/
def optInt : Option Nat → Int
  | none => -1
  | some n => n

/-- Python slice `s[a:b]` with negative-index wrap-around. -/
def pySlice (s : Str) (a b : Int) : Str :=
  let n : Int := s.length
  let lo := if a < 0 then max (n + a) 0 else min a n
  let hi := if b < 0 then max (n + b) 0 else min b n
  (s.take hi.toNat).drop lo.toNat

/-- Python index `s[i]` with negative-index wrap-around; `none` is an
`IndexError`. -/
def pyIndex (s : Str) (i : Int) : Option Char :=
  let j := if i < 0 then (s.length : Int) + i else i
  if j < 0 then none else s[j.toNat]?

/-- Python `s.split('#')` (single-character separator). -/
def splitChar (c : Char) : Str → List Str
  | [] => [[]]
  | a :: rest =>
    if a = c then [] :: splitChar c rest
    else
      match splitChar c rest with
      | [] => [[a]]
      | g :: gs => (a :: g) :: gs

/-- Python `s.split('||')` (the `Mapper.dataSeparator`), leftmost
non-overlapping matches. -/
def splitDSep : Str → List Str
  | [] => [[]]
  | '|' :: '|' :: rest => [] :: splitDSep rest
  | a :: rest =>
    match splitDSep rest with
    | [] => [[a]]
    | g :: gs => (a :: g) :: gs

/-- Truthiness of the optional inline text of an element (Python
`if text:` / `if element['data']:`). -/
def pyTruthy : Option Str → Bool
  | some (_ :: _) => true
  | _ => false

/-! ## The location parser (`LocationParser`) -/

/-- One parsed pseudo-tag: the dicts
`{'element': name, 'attributes': attributes, 'data': text-or-None}` built
by `LocationParser._parse` / `_parse_base_element`.  Every such dict
carries all three keys; in particular the key `'data'` is always present
(its value may be `None`), which matters for membership tests on it. -/
structure PathElement where
  element : Str
  attributes : List (Str × Str)
  data : Option Str
deriving DecidableEq, Repr

/-- A section: the list of elements between two `#` dividers. -/
abbrev PathSection := List PathElement

/-- Python dict insertion `attributes[attr] = val` on an insertion-ordered
dict, modelled on an association list with unique keys. -/
def dictInsert (d : List (Str × Str)) (k v : Str) : List (Str × Str) :=
  if d.any (fun p => p.1 = k) then d.map (fun p => if p.1 = k then (k, v) else p)
  else d ++ [(k, v)]

/-- Python dict lookup `attributes[k]` / membership `k in attributes`. -/
def dictGet (d : List (Str × Str)) (k : Str) : Option Str :=
  (d.find? (fun p => p.1 = k)).map (·.2)

/-- The `raise` sites of `LocationParser` (all plain `Exception` in the
source; the spec's name for this family is `MalformedPathError`). -/
inductive ParseErr
  | emptyLocation    -- `IndexError`: `data[0]` on a whitespace-only location
  | noTagOpener      -- 'location data must start with "<"'
  | badBaseTag       -- 'Error parsing ...!' in `_parse_base_element`
  | badSectionTag    -- 'Error parsing ...!' in the section loop of `_parse`
  | badAttributes    -- 'Error parsing attributes!' in `_parse_attributes`
  | fuelExhausted    -- fuel ran out (never happens at fuel `length + 1`)
deriving DecidableEq, Repr

/-- The `while len(data) > 0` loop of `LocationParser._parse_attributes`. -/
def parseAttrsGo (fuel : Nat) (data : Str) (acc : List (Str × Str)) :
    Except ParseErr (List (Str × Str)) :=
  match fuel with
  | 0 => .error .fuelExhausted
  | fuel + 1 =>
    if data = [] then .ok acc
    else
      let equal := findChar '=' data
      let attr := pStrip (pySlice data 0 (optInt equal))
      let valStart := findFrom '"' data (optInt equal + 1).toNat
      let valEnd := findFrom '"' data (optInt valStart + 1).toNat
      if optInt valEnd > optInt valStart then
        let val := pySlice data (optInt valStart + 1) (optInt valEnd)
        parseAttrsGo fuel (pStrip (data.drop ((optInt valEnd).toNat + 1)))
          (dictInsert acc attr val)
      else .error .badAttributes

/-- `LocationParser._parse_attributes`: strip, then scan
`name="value"` pairs. -/
def parseAttributes (data0 : Str) : Except ParseErr (List (Str × Str)) :=
  let d := pStrip data0
  parseAttrsGo (d.length + 1) d []

/-- Splitting one extracted tag into element name and attributes
(`space = tag.find(' '); if space > 0: ...` — the same code appears in
`_parse_base_element` and in the section loop of `_parse`). -/
def parseTagNameAttrs (tag : Str) : Except ParseErr (Str × List (Str × Str)) :=
  let space := findChar ' ' tag
  if optInt space > 0 then
    match parseAttributes (pySlice tag (optInt space) (-1)) with
    | .error e => .error e
    | .ok attrs => .ok (pySlice tag 1 (optInt space), attrs)
  else .ok (pySlice tag 1 (-1), [])

/-- `LocationParser._parse_base_element`: grab the first tag, returning the
base element and the remaining string. -/
def parseBase (data : Str) : Except ParseErr (PathElement × Str) :=
  let startTagPos := findChar '<' data
  let endTagPos := findChar '>' data
  if optInt endTagPos > optInt startTagPos then
    let tag := pySlice data (optInt startTagPos) (optInt endTagPos + 1)
    let rest := data.drop ((optInt endTagPos).toNat + 1)
    match parseTagNameAttrs tag with
    | .error e => .error e
    | .ok (name, attrs) => .ok ({element := name, attributes := attrs, data := none}, rest)
  else .error .badBaseTag

/-- The `while len(section) > 0` loop of `LocationParser._parse`: extract
tags (skipping closing tags), attach any text before the next tag as the
element's inline data. -/
def secLoopGo (fuel : Nat) (sec : Str) (acc : List PathElement) :
    Except ParseErr (List PathElement) :=
  match fuel with
  | 0 => .error .fuelExhausted
  | fuel + 1 =>
    if sec = [] then .ok acc
    else
      let s := findChar '<' sec
      let e := findChar '>' sec
      if optInt e > optInt s then
        let tag := pySlice sec (optInt s) (optInt e + 1)
        let sec1 := sec.drop ((optInt e).toNat + 1)
        if pySlice tag 0 2 = ['<', '/'] then secLoopGo fuel sec1 acc
        else
          match parseTagNameAttrs tag with
          | .error er => .error er
          | .ok (name, attrs) =>
            let ts :=
              if sec1 = [] then ((none : Option Str), sec1)
              else
                match findChar '<' sec1 with
                | some 0 => (none, sec1)
                | none => (some sec1, ([] : Str))
                | some (k + 1) => (some (sec1.take (k + 1)), sec1.drop (k + 1))
            let el : PathElement :=
              if pyTruthy ts.1 then {element := name, attributes := attrs, data := ts.1}
              else {element := name, attributes := attrs, data := none}
            secLoopGo fuel ts.2 (acc ++ [el])
      else .error .badSectionTag

/-- One section piece: run the loop on it with sufficient fuel. -/
def parseSection (piece : Str) : Except ParseErr (List PathElement) :=
  secLoopGo (piece.length + 1) piece []

/-- Parse the divider-separated pieces in order, dropping sections that
come out empty (`if new_section: self._sections.append(new_section)`). -/
def parseSectionsGo : List Str → Except ParseErr (List PathSection)
  | [] => .ok []
  | piece :: rest =>
    match parseSection piece with
    | .error e => .error e
    | .ok els =>
      match parseSectionsGo rest with
      | .error e => .error e
      | .ok secs => .ok (if els = [] then secs else els :: secs)

/-- The result of `LocationParser.__init__` on a location string. -/
structure ParsedLoc where
  base : PathElement
  sections : List PathSection
  hasSectionedData : Bool
deriving DecidableEq, Repr

/-- `LocationParser._parse`: strip, require a leading `<`, parse the base
element, then parse the `#`-separated sections. -/
def parseLoc (raw : Str) : Except ParseErr ParsedLoc :=
  let data := pStrip raw
  match data with
  | [] => .error .emptyLocation
  | c :: _ =>
    if c = '<' then
      match parseBase data with
      | .error e => .error e
      | .ok (base, rest) =>
        if rest = [] then .ok ⟨base, [], false⟩
        else
          let pieces := splitChar '#' rest
          let hsd := decide (pieces.length > 1)
          match parseSectionsGo pieces with
          | .error e => .error e
          | .ok secs => .ok ⟨base, secs, hsd⟩
    else .error .noTagOpener

/-! ## The value splitter (`Mapper._get_data_divs` and the entry split) -/

/-- The inner escape loop of `_get_data_divs`
(`while ind != -1 and data[ind-1] == '\\': ...`), with fuel: it does not
always terminate.  Returns the rewritten data together with the final
divider position (`none` for Python's `-1`). -/
def escLoopGo (fuel : Nat) (data : Str) (ind : Nat) : Option (Str × Option Nat) :=
  match fuel with
  | 0 => none
  | fuel + 1 =>
    match pyIndex data ((ind : Int) - 1) with
    | none => none
    | some ch =>
      if ch = '\\' then
        let data' := pySlice data 0 ((ind : Int) - 1) ++ data.drop ind
        match findFrom '#' data' ind with
        | none => some (data', none)
        | some ind' => escLoopGo fuel data' ind'
      else some (data, some ind)

/-- The outer `while data:` loop of `_get_data_divs`, with fuel. -/
def divsGo (fuel : Nat) (data : Str) : Option (List Str) :=
  match fuel with
  | 0 => if data = [] then some [] else none
  | fuel + 1 =>
    if data = [] then some []
    else
      match findChar '#' data with
      | none => some [data]
      | some ind =>
        match escLoopGo (fuel + 1) data ind with
        | none => none
        | some (data', none) => some [data']
        | some (data', some ind') =>
          match divsGo fuel (data'.drop (ind' + 1)) with
          | none => none
          | some divs => some (data'.take ind' :: divs)

/-- `Mapper._get_data_divs(data, has_sectioned_data)`. -/
def getDataDivs (fuel : Nat) (data : Str) (hasSectionedData : Bool) :
    Option (List Str) :=
  if hasSectionedData then divsGo fuel data else some [data]

/-- The entry split of `Mapper.add_data`: split the cell value on `'||'`,
strip each entry, and keep only the non-empty ones. -/
def splitEntries (data : Str) : List Str :=
  ((splitDSep data).map pStrip).filter (fun e => e ≠ [])

/-- Effectful map over a list in the `Option` monad (explicit recursion,
for easy induction). -/
def mapMO (f : α → Option β) : List α → Option (List β)
  | [] => some []
  | a :: rest =>
    match f a with
    | none => none
    | some b =>
      match mapMO f rest with
      | none => none
      | some bs => some (b :: bs)

/-- The data groups of one `add_data` call: each surviving entry, split
into its divisions. -/
def dataValsOf (fuel : Nat) (hasSectionedData : Bool) (data : Str) :
    Option (List (List Str)) :=
  mapMO (fun e => getDataDivs fuel e hasSectionedData) (splitEntries data)

/-! ## The MODS document model (the `bdrxml.mods` objects the mapper builds) -/

structure NamePart where
  text : Option Str
  type : Option Str
deriving DecidableEq, Repr

structure Role where
  text : Str
  type : Option Str
  authority : Option Str
deriving DecidableEq, Repr

structure Name where
  type : Option Str
  name_parts : List NamePart
  roles : List Role
deriving DecidableEq, Repr

structure TitleInfo where
  type : Option Str
  label : Option Str
  title : Option Str
  part_name : Option Str
  part_number : Option Str
  non_sort : Option Str
deriving DecidableEq, Repr

structure LanguageTerm where
  text : Str
  authority : Option Str
  type : Option Str
deriving DecidableEq, Repr

structure Language where
  terms : List LanguageTerm
deriving DecidableEq, Repr

structure Genre where
  text : Str
  authority : Option Str
deriving DecidableEq, Repr

/-- One dated entry of the origin-info block (`DateCreated`, `DateIssued`,
`DateCaptured`, `DateValid`, `DateModified`, `CopyrightDate`, `DateOther`
all carry the same fields; which class was used is determined by which
list the entry sits in). -/
structure DateEntry where
  date : Str
  encoding : Option Str
  point : Option Str
  key_date : Option Str
deriving DecidableEq, Repr

structure PlaceTerm where
  text : Str
deriving DecidableEq, Repr

structure Place where
  place_terms : List PlaceTerm
deriving DecidableEq, Repr

structure OriginInfo where
  label : Option Str
  created : List DateEntry
  issued : List DateEntry
  captured : List DateEntry
  valid : List DateEntry
  modified : List DateEntry
  copyright : List DateEntry
  other : List DateEntry
  places : List Place
  publisher : Option Str
deriving DecidableEq, Repr

/-- `mods.create_origin_info()`: a fresh, empty block. -/
def emptyOriginInfo : OriginInfo :=
  { label := none, created := [], issued := [], captured := [], valid := [],
    modified := [], copyright := [], other := [], places := [], publisher := none }

structure PhysicalDescription where
  extent : Option Str
  digital_origin : Option Str
  note : Option Str
deriving DecidableEq, Repr

def emptyPhysicalDescription : PhysicalDescription :=
  { extent := none, digital_origin := none, note := none }

structure Abstract where
  text : Option Str
deriving DecidableEq, Repr

structure Note where
  text : Str
  type : Option Str
  label : Option Str
deriving DecidableEq, Repr

structure Topic where
  text : Str
deriving DecidableEq, Repr

structure Temporal where
  text : Str
deriving DecidableEq, Repr

structure HierarchicalGeographic where
  country : Option Str
  state : Option Str
deriving DecidableEq, Repr

structure Subject where
  authority : Option Str
  topic_list : List Topic
  temporal_list : List Temporal
  geographic : Option Str
  hierarchical_geographic : Option HierarchicalGeographic
deriving DecidableEq, Repr

structure Identifier where
  text : Str
  type : Option Str
  label : Option Str
deriving DecidableEq, Repr

structure CopyInformation where
  notes : List Note
deriving DecidableEq, Repr

structure HoldingSimple where
  copy_information : List CopyInformation
deriving DecidableEq, Repr

structure Location where
  url : Option Str
  physical : Option Str
  holding_simple : Option HoldingSimple
deriving DecidableEq, Repr

structure RelatedItem where
  type : Option Str
  label : Option Str
  title : Option Str
deriving DecidableEq, Repr

structure Mods where
  id : Option Str
  names : List Name
  title_info_list : List TitleInfo
  languages : List Language
  genres : List Genre
  origin_info : Option OriginInfo
  physical_description : Option PhysicalDescription
  resource_type : Option Str
  abstract : Option Abstract
  notes : List Note
  subjects : List Subject
  identifiers : List Identifier
  locations : List Location
  related_items : List RelatedItem
deriving DecidableEq, Repr

/-- `mods.make_mods()`: an empty document. -/
def emptyMods : Mods :=
  { id := none, names := [], title_info_list := [], languages := [], genres := [],
    origin_info := none, physical_description := none, resource_type := none,
    abstract := none, notes := [], subjects := [], identifiers := [],
    locations := [], related_items := [] }

/-- `Mapper._cleared_fields`: which categories have had their inherited
content reset, keyed exactly as in the source. -/
structure ClearedFields where
  names : Bool
  title_info_list : Bool
  languages : Bool
  genres : Bool
  origin_info : Bool
  physical_description : Bool
  typeOfResource : Bool
  abstract : Bool
  notes : Bool
  subjects : Bool
  identifiers : Bool
  locations : Bool
  related : Bool
deriving DecidableEq, Repr

def noCleared : ClearedFields :=
  { names := false, title_info_list := false, languages := false, genres := false,
    origin_info := false, physical_description := false, typeOfResource := false,
    abstract := false, notes := false, subjects := false, identifiers := false,
    locations := false, related := false }

/-- One `Mapper` instance: its document and its cleared-fields dict. -/
structure Mapper where
  mods : Mods
  cleared : ClearedFields
deriving DecidableEq, Repr

/-- `Mapper.__init__(parent_mods=...)`: start from the parent document in
merge mode, else from a fresh document; nothing is cleared yet. -/
def initMapper (parent : Option Mods) : Mapper :=
  { mods := parent.getD emptyMods, cleared := noCleared }

/-- The failures `Mapper.add_data` can raise: the parser errors
(`MalformedPathError` in the spec's taxonomy), the two closed-world
dispatch failures (which the source raises after logging/printing the
offending base element resp. section), and Python `IndexError` /
`AttributeError` from unguarded subscripts and attribute accesses. -/
inductive MapErr
  | parseFailure (e : ParseErr)
  | unhandledElement (base : PathElement)
  | unhandledOriginInfo (sec : PathSection)
  | indexError
  | attributeError
deriving DecidableEq, Repr

/-! ## Category construction rules (`Mapper._add_*` and the inline branches) -/

/-- Effectful map over a list in the `Except` monad (explicit recursion,
for easy induction); mirrors Python loops of the form
`for data in data_vals: ... append(make(data))`. -/
def mapME (f : α → Except MapErr β) : List α → Except MapErr (List β)
  | [] => .ok []
  | a :: rest =>
    match f a with
    | .error e => .error e
    | .ok b =>
      match mapME f rest with
      | .error e => .error e
      | .ok bs => .ok (b :: bs)

/-- Effectful fold in the `Except` monad. -/
def foldE (f : σ → α → Except MapErr σ) (s : σ) : List α → Except MapErr σ
  | [] => .ok s
  | a :: rest =>
    match f s a with
    | .error e => .error e
    | .ok s2 => foldE f s2 rest

/-- The role built in `_add_name_data`'s `mods:roleTerm` branch: text from
the element's inline data if truthy, else from the aligned division if
truthy, else no role; type/authority from the element's attributes. -/
def roleOfElement (el : PathElement) (div : Option Str) : Option Role :=
  let mk : Str → Role := fun t =>
    { text := t, type := dictGet el.attributes ("type".toList),
      authority := dictGet el.attributes ("authority".toList) }
  match el.data with
  | some (c :: cs) => some (mk (c :: cs))
  | _ =>
    match div with
    | some (c :: cs) => some (mk (c :: cs))
    | _ => none

/-- The `for element in section:` body of `_add_name_data`. -/
def procNameElement (div : Option Str) (name : Name) (el : PathElement) : Name :=
  if el.element = ("mods:namePart".toList) ∧ dictGet el.attributes ("type".toList) = none then
    {name with name_parts := name.name_parts ++ [{text := div, type := none}]}
  else if el.element = ("mods:namePart".toList) ∧ (dictGet el.attributes ("type".toList)).isSome then
    {name with name_parts := name.name_parts ++ [{text := div, type := dictGet el.attributes ("type".toList)}]}
  else if el.element = ("mods:roleTerm".toList) then
    match roleOfElement el div with
    | some r => {name with roles := name.roles ++ [r]}
    | none => name
  else name

/-- One section of `_add_name_data`: look up the aligned division
(`try: div = data_divs[index].strip() except: div = None`), then skip the
section when the division is falsy — unless its first element is
`mods:role` (note the short-circuit: `section[0]` is only read when the
division is falsy, and raises `IndexError` on an empty section). -/
def nameSectionStep (dataDivs : List Str) (idx : Nat) (name : Name)
    (sec : PathSection) : Except MapErr Name :=
  let div : Option Str := (dataDivs[idx]?).map pStrip
  if pyTruthy div = false then
    match sec with
    | [] => .error .indexError
    | e0 :: _ =>
      if e0.element = ("mods:role".toList) then .ok (sec.foldl (procNameElement div) name)
      else .ok name
  else .ok (sec.foldl (procNameElement div) name)

def mkNameGo (dataDivs : List Str) (idx : Nat) (name : Name) :
    List PathSection → Except MapErr Name
  | [] => .ok name
  | sec :: rest =>
    match nameSectionStep dataDivs idx name sec with
    | .error e => .error e
    | .ok name' => mkNameGo dataDivs (idx + 1) name' rest

/-- One entry of `_add_name_data`: a fresh name with its type from the
base attributes, then the enumerated section loop. -/
def mkName (base : PathElement) (sections : List PathSection) (dataDivs : List Str) :
    Except MapErr Name :=
  mkNameGo dataDivs 0
    { type := dictGet base.attributes ("type".toList), name_parts := [], roles := [] }
    sections

/-- `Mapper._add_name_data`: one name per data group, appended in order. -/
def newNames (base : PathElement) (sections : List PathSection)
    (dataVals : List (List Str)) : Except MapErr (List Name) :=
  mapME (mkName base sections) dataVals

/-- The `for element in section:` body of `_add_title_data`. -/
def procTitleElement (div : Str) (t : TitleInfo) (el : PathElement) : TitleInfo :=
  if el.element = ("mods:title".toList) then {t with title := some div}
  else if el.element = ("mods:partName".toList) then {t with part_name := some div}
  else if el.element = ("mods:partNumber".toList) then {t with part_number := some div}
  else if el.element = ("mods:nonSort".toList) then {t with non_sort := some div}
  else t

/-- One entry of `_add_title_data`: a fresh title with type/label from the
base attributes, then `zip(location_sections, data_divs)`. -/
def mkTitle (base : PathElement) (sections : List PathSection) (dataDivs : List Str) :
    TitleInfo :=
  (List.zip sections dataDivs).foldl
    (fun t sd => sd.1.foldl (procTitleElement sd.2) t)
    { type := dictGet base.attributes ("type".toList),
      label := dictGet base.attributes ("displayLabel".toList),
      title := none, part_name := none, part_number := none, non_sort := none }

/-- `Mapper._add_title_data`: one title per data group. -/
def newTitles (base : PathElement) (sections : List PathSection)
    (dataVals : List (List Str)) : List TitleInfo :=
  dataVals.map (mkTitle base sections)

/-- One entry of the `mods:language` branch: a language with one term whose
text is `data[0]` and whose authority/type come from
`location_sections[0][0]` (unguarded subscripts). -/
def mkLanguage (sections : List PathSection) (dataDivs : List Str) :
    Except MapErr Language :=
  match dataDivs[0]? with
  | none => .error .indexError
  | some d0 =>
    match sections[0]? with
    | none => .error .indexError
    | some sec0 =>
      match sec0[0]? with
      | none => .error .indexError
      | some el =>
        .ok { terms := [{ text := d0,
                          authority := dictGet el.attributes ("authority".toList),
                          type := dictGet el.attributes ("type".toList) }] }

def newLanguages (sections : List PathSection) (dataVals : List (List Str)) :
    Except MapErr (List Language) :=
  mapME (mkLanguage sections) dataVals

/-- One entry of the `mods:genre` branch. -/
def mkGenre (base : PathElement) (dataDivs : List Str) : Except MapErr Genre :=
  match dataDivs[0]? with
  | none => .error .indexError
  | some d0 => .ok { text := d0, authority := dictGet base.attributes ("authority".toList) }

def newGenres (base : PathElement) (dataVals : List (List Str)) :
    Except MapErr (List Genre) :=
  mapME (mkGenre base) dataVals

/-- One entry of the `mods:note` branch. -/
def mkNote (base : PathElement) (dataDivs : List Str) : Except MapErr Note :=
  match dataDivs[0]? with
  | none => .error .indexError
  | some d0 => .ok { text := d0, type := dictGet base.attributes ("type".toList),
                     label := dictGet base.attributes ("displayLabel".toList) }

def newNotes (base : PathElement) (dataVals : List (List Str)) :
    Except MapErr (List Note) :=
  mapME (mkNote base) dataVals

/-- One entry of the `mods:identifier` branch. -/
def mkIdentifier (base : PathElement) (dataDivs : List Str) : Except MapErr Identifier :=
  match dataDivs[0]? with
  | none => .error .indexError
  | some d0 => .ok { text := d0, type := dictGet base.attributes ("type".toList),
                     label := dictGet base.attributes ("displayLabel".toList) }

def newIdentifiers (base : PathElement) (dataVals : List (List Str)) :
    Except MapErr (List Identifier) :=
  mapME (mkIdentifier base) dataVals

/-- The `for section, div in zip(...)` body of the `mods:subject` branch.
In the `mods:hierarchicalGeographic` case the source tests
`'data' in section[1]`, which is always true (every parsed element dict
carries the `'data'` key), so the country is set from the inline-data slot
and `section[2]` is then read unconditionally; the `else` arm assigning
the aligned division to the country is dead code. -/
def procSubjectSection (s : Subject) (sec : PathSection) (div : Str) :
    Except MapErr Subject :=
  match sec with
  | [] => .error .indexError
  | e0 :: _ =>
    if e0.element = ("mods:topic".toList) then
      .ok {s with topic_list := s.topic_list ++ [{text := div}]}
    else if e0.element = ("mods:temporal".toList) then
      .ok {s with temporal_list := s.temporal_list ++ [{text := div}]}
    else if e0.element = ("mods:geographic".toList) then
      .ok {s with geographic := some div}
    else if e0.element = ("mods:hierarchicalGeographic".toList) then
      match sec[1]? with
      | none => .error .indexError
      | some e1 =>
        if e1.element = ("mods:country".toList) then
          match sec[2]? with
          | none => .error .indexError
          | some e2 =>
            let hg : HierarchicalGeographic :=
              if e2.element = ("mods:state".toList) then {country := e1.data, state := some div}
              else {country := e1.data, state := none}
            .ok {s with hierarchical_geographic := some hg}
        else .ok {s with hierarchical_geographic := some {country := none, state := none}}
    else .ok s

def subjGo (s : Subject) : List (PathSection × Str) → Except MapErr Subject
  | [] => .ok s
  | sd :: rest =>
    match procSubjectSection s sd.1 sd.2 with
    | .error e => .error e
    | .ok s' => subjGo s' rest

/-- One entry of the `mods:subject` branch. -/
def mkSubject (base : PathElement) (sections : List PathSection)
    (dataDivs : List Str) : Except MapErr Subject :=
  subjGo
    { authority := dictGet base.attributes ("authority".toList), topic_list := [],
      temporal_list := [], geographic := none, hierarchical_geographic := none }
    (List.zip sections dataDivs)

def newSubjects (base : PathElement) (sections : List PathSection)
    (dataVals : List (List Str)) : Except MapErr (List Subject) :=
  mapME (mkSubject base sections) dataVals

/-- The `for section, div in zip(...)` body of the `mods:location` branch
(url/physicalLocation prefer truthy inline data; the holdingSimple chain
reads `section[1]` and `section[2]` unguarded). -/
def procLocationSection (l : Location) (sec : PathSection) (div : Str) :
    Except MapErr Location :=
  match sec with
  | [] => .error .indexError
  | e0 :: _ =>
    if e0.element = ("mods:url".toList) then
      if pyTruthy e0.data then .ok {l with url := e0.data} else .ok {l with url := some div}
    else if e0.element = ("mods:physicalLocation".toList) then
      if pyTruthy e0.data then .ok {l with physical := e0.data} else .ok {l with physical := some div}
    else if e0.element = ("mods:holdingSimple".toList) then
      match sec[1]? with
      | none => .error .indexError
      | some e1 =>
        if e1.element = ("mods:copyInformation".toList) then
          match sec[2]? with
          | none => .error .indexError
          | some e2 =>
            if e2.element = ("mods:note".toList) then
              let hs : HoldingSimple :=
                {copy_information := [{notes := [{text := div, type := none, label := none}]}]}
              .ok {l with holding_simple := some hs}
            else .ok l
        else .ok l
    else .ok l

def locGo (l : Location) : List (PathSection × Str) → Except MapErr Location
  | [] => .ok l
  | sd :: rest =>
    match procLocationSection l sd.1 sd.2 with
    | .error e => .error e
    | .ok l' => locGo l' rest

/-- One entry of the `mods:location` branch. -/
def mkLocation (sections : List PathSection) (dataDivs : List Str) :
    Except MapErr Location :=
  locGo {url := none, physical := none, holding_simple := none}
    (List.zip sections dataDivs)

def newLocations (sections : List PathSection) (dataVals : List (List Str)) :
    Except MapErr (List Location) :=
  mapME (mkLocation sections) dataVals

/-- One entry of the `mods:relatedItem` branch: `location_sections[0][0]`
and, when it is a titleInfo, `location_sections[0][1]` are read
unguarded. -/
def mkRelated (base : PathElement) (sections : List PathSection)
    (dataDivs : List Str) : Except MapErr RelatedItem :=
  let r0 : RelatedItem :=
    { type := dictGet base.attributes ("type".toList),
      label := dictGet base.attributes ("displayLabel".toList), title := none }
  match sections[0]? with
  | none => .error .indexError
  | some sec0 =>
    match sec0[0]? with
    | none => .error .indexError
    | some e00 =>
      if e00.element = ("mods:titleInfo".toList) then
        match sec0[1]? with
        | none => .error .indexError
        | some e01 =>
          if e01.element = ("mods:title".toList) then
            match dataDivs[0]? with
            | none => .error .indexError
            | some d0 => .ok {r0 with title := some d0}
          else .ok r0
      else .ok r0

def newRelated (base : PathElement) (sections : List PathSection)
    (dataVals : List (List Str)) : Except MapErr (List RelatedItem) :=
  mapME (mkRelated base sections) dataVals

/-- `Mapper._set_date_attributes` applied to a freshly built date. -/
def setDateAttributes (attrs : List (Str × Str)) (d : Str) : DateEntry :=
  { date := d, encoding := dictGet attrs ("encoding".toList),
    point := dictGet attrs ("point".toList), key_date := dictGet attrs ("keyDate".toList) }

/-- One section of `_add_origin_info_data`: the aligned division is read
unguarded (`if not divs[index]: continue` — `IndexError` when absent),
empty divisions are skipped, and an unrecognized section element raises
(the spec's `UnhandledOriginInfoElementError`). -/
def originSectionStep (divs : List Str) (idx : Nat) (oi : OriginInfo)
    (sec : PathSection) : Except MapErr OriginInfo :=
  match divs[idx]? with
  | none => .error .indexError
  | some d =>
    if d = [] then .ok oi
    else
      match sec with
      | [] => .error .indexError
      | e0 :: _ =>
        if e0.element = ("mods:dateCreated".toList) then
          .ok {oi with created := oi.created ++ [setDateAttributes e0.attributes d]}
        else if e0.element = ("mods:dateIssued".toList) then
          .ok {oi with issued := oi.issued ++ [setDateAttributes e0.attributes d]}
        else if e0.element = ("mods:dateCaptured".toList) then
          .ok {oi with captured := oi.captured ++ [setDateAttributes e0.attributes d]}
        else if e0.element = ("mods:dateValid".toList) then
          .ok {oi with valid := oi.valid ++ [setDateAttributes e0.attributes d]}
        else if e0.element = ("mods:dateModified".toList) then
          .ok {oi with modified := oi.modified ++ [setDateAttributes e0.attributes d]}
        else if e0.element = ("mods:copyrightDate".toList) then
          .ok {oi with copyright := oi.copyright ++ [setDateAttributes e0.attributes d]}
        else if e0.element = ("mods:dateOther".toList) then
          .ok {oi with other := oi.other ++ [setDateAttributes e0.attributes d]}
        else if e0.element = ("mods:place".toList) then
          .ok {oi with places := oi.places ++ [{place_terms := [{text := d}]}]}
        else if e0.element = ("mods:publisher".toList) then
          .ok {oi with publisher := some d}
        else .error (.unhandledOriginInfo sec)

def originGo (divs : List Str) (idx : Nat) (oi : OriginInfo) :
    List PathSection → Except MapErr OriginInfo
  | [] => .ok oi
  | sec :: rest =>
    match originSectionStep divs idx oi sec with
    | .error e => .error e
    | .ok oi' => originGo divs (idx + 1) oi' rest

/-- `Mapper._add_origin_info_data`: set the block label from the base
attributes, then process each data group's sections in order. -/
def applyOriginInfo (base : PathElement) (sections : List PathSection)
    (dataVals : List (List Str)) (oi0 : OriginInfo) : Except MapErr OriginInfo :=
  let oi1 :=
    match dictGet base.attributes ("displayLabel".toList) with
    | some lb => {oi0 with label := some lb}
    | none => oi0
  foldE (fun oi divs => originGo divs 0 oi sections) oi1 dataVals

/-- One section of the `mods:physicalDescription` branch: the aligned
division is subscripted unguarded, but only inside a recognized
sub-element's arm. -/
def pdSectionStep (divs : List Str) (idx : Nat) (pd : PhysicalDescription)
    (sec : PathSection) : Except MapErr PhysicalDescription :=
  match sec with
  | [] => .error .indexError
  | e0 :: _ =>
    if e0.element = ("mods:extent".toList) then
      match divs[idx]? with
      | none => .error .indexError
      | some d => .ok {pd with extent := some d}
    else if e0.element = ("mods:digitalOrigin".toList) then
      match divs[idx]? with
      | none => .error .indexError
      | some d => .ok {pd with digital_origin := some d}
    else if e0.element = ("mods:note".toList) then
      match divs[idx]? with
      | none => .error .indexError
      | some d => .ok {pd with note := some d}
    else .ok pd

def pdGo (divs : List Str) (idx : Nat) (pd : PhysicalDescription) :
    List PathSection → Except MapErr PhysicalDescription
  | [] => .ok pd
  | sec :: rest =>
    match pdSectionStep divs idx pd sec with
    | .error e => .error e
    | .ok pd' => pdGo divs (idx + 1) pd' rest

/-! ## The category dispatch of `Mapper.add_data` -/

/-- The `mods:mods` branch: set the document id when the base element
carries an `ID` attribute. -/
def modsIdBranch (m : Mapper) (base : PathElement)
    (dataVals : List (List Str)) : Except MapErr Mapper :=
  if (dictGet base.attributes ("ID".toList)).isSome then
    match dataVals[0]? with
    | none => .error .indexError
    | some divs =>
      match divs[0]? with
      | none => .error .indexError
      | some v => .ok {m with mods := {m.mods with id := some v}}
  else .ok m

/-- The `mods:name` branch: first-touch reset, then `_add_name_data`. -/
def nameBranch (m : Mapper) (base : PathElement) (sections : List PathSection)
    (dataVals : List (List Str)) : Except MapErr Mapper :=
  let m1 := if m.cleared.names = false then
    {m with mods := {m.mods with names := []}, cleared := {m.cleared with names := true}}
    else m
  match newNames base sections dataVals with
  | .error e => .error e
  | .ok ns => .ok {m1 with mods := {m1.mods with names := m1.mods.names ++ ns}}

/-- The bare `mods:namePart` branch: no reset; append one name part (with
optional type from the base attributes) to the last name of the document
(`self._mods.names[-1]`, an `IndexError` when there are no names). -/
def namePartBranch (m : Mapper) (base : PathElement)
    (dataVals : List (List Str)) : Except MapErr Mapper :=
  match m.mods.names.getLast? with
  | none => .error .indexError
  | some nm =>
    match dataVals[0]? with
    | none => .error .indexError
    | some divs =>
      match divs[0]? with
      | none => .error .indexError
      | some v =>
        let np : NamePart := {text := some v, type := dictGet base.attributes ("type".toList)}
        .ok {m with mods := {m.mods with names :=
              m.mods.names.dropLast ++ [{nm with name_parts := nm.name_parts ++ [np]}]}}

/-- The `mods:titleInfo` branch. -/
def titleBranch (m : Mapper) (base : PathElement) (sections : List PathSection)
    (dataVals : List (List Str)) : Except MapErr Mapper :=
  let m1 := if m.cleared.title_info_list = false then
    {m with mods := {m.mods with title_info_list := []},
            cleared := {m.cleared with title_info_list := true}}
    else m
  .ok {m1 with mods := {m1.mods with title_info_list :=
        m1.mods.title_info_list ++ newTitles base sections dataVals}}

/-- The `mods:language` branch. -/
def languageBranch (m : Mapper) (sections : List PathSection)
    (dataVals : List (List Str)) : Except MapErr Mapper :=
  let m1 := if m.cleared.languages = false then
    {m with mods := {m.mods with languages := []},
            cleared := {m.cleared with languages := true}}
    else m
  match newLanguages sections dataVals with
  | .error e => .error e
  | .ok ls => .ok {m1 with mods := {m1.mods with languages := m1.mods.languages ++ ls}}

/-- The `mods:genre` branch. -/
def genreBranch (m : Mapper) (base : PathElement)
    (dataVals : List (List Str)) : Except MapErr Mapper :=
  let m1 := if m.cleared.genres = false then
    {m with mods := {m.mods with genres := []}, cleared := {m.cleared with genres := true}}
    else m
  match newGenres base dataVals with
  | .error e => .error e
  | .ok gs => .ok {m1 with mods := {m1.mods with genres := m1.mods.genres ++ gs}}

/-- The `mods:originInfo` branch: on first touch the block is dropped and
re-created empty, then `_add_origin_info_data` runs against it. -/
def originBranch (m : Mapper) (base : PathElement) (sections : List PathSection)
    (dataVals : List (List Str)) : Except MapErr Mapper :=
  let m1 := if m.cleared.origin_info = false then
    {m with mods := {m.mods with origin_info := some emptyOriginInfo},
            cleared := {m.cleared with origin_info := true}}
    else m
  match m1.mods.origin_info with
  | none => .error .attributeError
  | some oi =>
    match applyOriginInfo base sections dataVals oi with
    | .error e => .error e
    | .ok oi2 => .ok {m1 with mods := {m1.mods with origin_info := some oi2}}

/-- The `mods:physicalDescription` branch. -/
def physDescBranch (m : Mapper) (sections : List PathSection)
    (dataVals : List (List Str)) : Except MapErr Mapper :=
  let m1 := if m.cleared.physical_description = false then
    {m with mods := {m.mods with physical_description := some emptyPhysicalDescription},
            cleared := {m.cleared with physical_description := true}}
    else m
  match m1.mods.physical_description with
  | none => .error .attributeError
  | some pd =>
    match dataVals[0]? with
    | none => .error .indexError
    | some divs =>
      match pdGo divs 0 pd sections with
      | .error e => .error e
      | .ok pd2 => .ok {m1 with mods := {m1.mods with physical_description := some pd2}}

/-- The `mods:typeOfResource` branch (singleton scalar, last write wins). -/
def resourceTypeBranch (m : Mapper) (dataVals : List (List Str)) :
    Except MapErr Mapper :=
  let m1 := if m.cleared.typeOfResource = false then
    {m with mods := {m.mods with resource_type := none},
            cleared := {m.cleared with typeOfResource := true}}
    else m
  match dataVals[0]? with
  | none => .error .indexError
  | some divs =>
    match divs[0]? with
    | none => .error .indexError
    | some v => .ok {m1 with mods := {m1.mods with resource_type := some v}}

/-- The `mods:abstract` branch (singleton, created on first touch). -/
def abstractBranch (m : Mapper) (dataVals : List (List Str)) :
    Except MapErr Mapper :=
  let m1 := if m.cleared.abstract = false then
    {m with mods := {m.mods with abstract := some ({text := none} : Abstract)},
            cleared := {m.cleared with abstract := true}}
    else m
  match m1.mods.abstract with
  | none => .error .attributeError
  | some _ =>
    match dataVals[0]? with
    | none => .error .indexError
    | some divs =>
      match divs[0]? with
      | none => .error .indexError
      | some v => .ok {m1 with mods := {m1.mods with abstract := some ({text := some v} : Abstract)}}

/-- The `mods:note` branch. -/
def noteBranch (m : Mapper) (base : PathElement)
    (dataVals : List (List Str)) : Except MapErr Mapper :=
  let m1 := if m.cleared.notes = false then
    {m with mods := {m.mods with notes := []}, cleared := {m.cleared with notes := true}}
    else m
  match newNotes base dataVals with
  | .error e => .error e
  | .ok ns => .ok {m1 with mods := {m1.mods with notes := m1.mods.notes ++ ns}}

/-- The `mods:subject` branch. -/
def subjectBranch (m : Mapper) (base : PathElement) (sections : List PathSection)
    (dataVals : List (List Str)) : Except MapErr Mapper :=
  let m1 := if m.cleared.subjects = false then
    {m with mods := {m.mods with subjects := []}, cleared := {m.cleared with subjects := true}}
    else m
  match newSubjects base sections dataVals with
  | .error e => .error e
  | .ok ss => .ok {m1 with mods := {m1.mods with subjects := m1.mods.subjects ++ ss}}

/-- The `mods:identifier` branch. -/
def identifierBranch (m : Mapper) (base : PathElement)
    (dataVals : List (List Str)) : Except MapErr Mapper :=
  let m1 := if m.cleared.identifiers = false then
    {m with mods := {m.mods with identifiers := []},
            cleared := {m.cleared with identifiers := true}}
    else m
  match newIdentifiers base dataVals with
  | .error e => .error e
  | .ok ids => .ok {m1 with mods := {m1.mods with identifiers := m1.mods.identifiers ++ ids}}

/-- The `mods:location` branch. -/
def locationBranch (m : Mapper) (sections : List PathSection)
    (dataVals : List (List Str)) : Except MapErr Mapper :=
  let m1 := if m.cleared.locations = false then
    {m with mods := {m.mods with locations := []},
            cleared := {m.cleared with locations := true}}
    else m
  match newLocations sections dataVals with
  | .error e => .error e
  | .ok ls => .ok {m1 with mods := {m1.mods with locations := m1.mods.locations ++ ls}}

/-- The `mods:relatedItem` branch. -/
def relatedBranch (m : Mapper) (base : PathElement) (sections : List PathSection)
    (dataVals : List (List Str)) : Except MapErr Mapper :=
  let m1 := if m.cleared.related = false then
    {m with mods := {m.mods with related_items := []},
            cleared := {m.cleared with related := true}}
    else m
  match newRelated base sections dataVals with
  | .error e => .error e
  | .ok rs => .ok {m1 with mods := {m1.mods with related_items := m1.mods.related_items ++ rs}}

/-- The `if/elif` chain of `Mapper.add_data` after parsing and splitting:
dispatch on the base element name to the category branch; the final
`else` raises (the spec's `UnhandledElementError`; the source logs the
offending base element and raises `Exception('element not handled!')`). -/
def dispatch (m : Mapper) (base : PathElement) (sections : List PathSection)
    (dataVals : List (List Str)) : Except MapErr Mapper :=
  if base.element = ("mods:mods".toList) then modsIdBranch m base dataVals
  else if base.element = ("mods:name".toList) then nameBranch m base sections dataVals
  else if base.element = ("mods:namePart".toList) then namePartBranch m base dataVals
  else if base.element = ("mods:titleInfo".toList) then titleBranch m base sections dataVals
  else if base.element = ("mods:language".toList) then languageBranch m sections dataVals
  else if base.element = ("mods:genre".toList) then genreBranch m base dataVals
  else if base.element = ("mods:originInfo".toList) then originBranch m base sections dataVals
  else if base.element = ("mods:physicalDescription".toList) then physDescBranch m sections dataVals
  else if base.element = ("mods:typeOfResource".toList) then resourceTypeBranch m dataVals
  else if base.element = ("mods:abstract".toList) then abstractBranch m dataVals
  else if base.element = ("mods:note".toList) then noteBranch m base dataVals
  else if base.element = ("mods:subject".toList) then subjectBranch m base sections dataVals
  else if base.element = ("mods:identifier".toList) then identifierBranch m base dataVals
  else if base.element = ("mods:location".toList) then locationBranch m sections dataVals
  else if base.element = ("mods:relatedItem".toList) then relatedBranch m base sections dataVals
  else .error (.unhandledElement base)

/-- `Mapper.add_data(mods_loc, data)`: parse the location, split the
value, dispatch.  The outer `Option` layer is the fuel of the division
split, whose loop does not always terminate: `none` means the split at
this fuel did not finish (in Python, the call is still running). -/
def addData (fuel : Nat) (m : Mapper) (modsLoc data : Str) :
    Option (Except MapErr Mapper) :=
  match parseLoc modsLoc with
  | .error e => some (.error (.parseFailure e))
  | .ok p =>
    match dataValsOf fuel p.hasSectionedData data with
    | none => none
    | some dataVals => some (dispatch m p.base p.sections dataVals)

/-- Feeding a record's `(path, value)` pairs to one mapper in column
order, as `process` does. -/
def runCalls (fuel : Nat) (m : Mapper) : List (Str × Str) → Option (Except MapErr Mapper)
  | [] => some (.ok m)
  | pd :: rest =>
    match addData fuel m pd.1 pd.2 with
    | none => none
    | some (.error e) => some (.error e)
    | some (.ok m') => runCalls fuel m' rest

/-! ## Observation layer: the multi-valued categories and their backing
collections, used to state the first-touch-reset properties uniformly. -/

/-- The nine list-backed multi-valued categories (origin-info, the tenth
category of the reset rule, is a singleton block and is treated
separately). -/
inductive MCat
  | names | titles | languages | genres | notes | subjects | identifiers
  | locations | related
deriving DecidableEq, Repr

/-- The base element name that targets each category. -/
def catTag : MCat → Str
  | .names => "mods:name".toList
  | .titles => "mods:titleInfo".toList
  | .languages => "mods:language".toList
  | .genres => "mods:genre".toList
  | .notes => "mods:note".toList
  | .subjects => "mods:subject".toList
  | .identifiers => "mods:identifier".toList
  | .locations => "mods:location".toList
  | .related => "mods:relatedItem".toList

/-- The category's `_cleared_fields` flag. -/
def catFlag (m : Mapper) : MCat → Bool
  | .names => m.cleared.names
  | .titles => m.cleared.title_info_list
  | .languages => m.cleared.languages
  | .genres => m.cleared.genres
  | .notes => m.cleared.notes
  | .subjects => m.cleared.subjects
  | .identifiers => m.cleared.identifiers
  | .locations => m.cleared.locations
  | .related => m.cleared.related

/-- An entry of any of the nine collections, tagged by category. -/
inductive MEnt
  | nm (x : Name)
  | ti (x : TitleInfo)
  | lg (x : Language)
  | ge (x : Genre)
  | no (x : Note)
  | su (x : Subject)
  | idf (x : Identifier)
  | lo (x : Location)
  | re (x : RelatedItem)
deriving DecidableEq, Repr

/-- The category's backing collection, as a uniform list of entries. -/
def col (d : Mods) : MCat → List MEnt
  | .names => d.names.map .nm
  | .titles => d.title_info_list.map .ti
  | .languages => d.languages.map .lg
  | .genres => d.genres.map .ge
  | .notes => d.notes.map .no
  | .subjects => d.subjects.map .su
  | .identifiers => d.identifiers.map .idf
  | .locations => d.locations.map .lo
  | .related => d.related_items.map .re

/-- The entries one dispatched call constructs for its category (tagged). -/
def newEnts (c : MCat) (base : PathElement) (sections : List PathSection)
    (dataVals : List (List Str)) : Except MapErr (List MEnt) :=
  match c with
  | .names =>
    match newNames base sections dataVals with
    | .error e => .error e
    | .ok l => .ok (l.map .nm)
  | .titles => .ok ((newTitles base sections dataVals).map .ti)
  | .languages =>
    match newLanguages sections dataVals with
    | .error e => .error e
    | .ok l => .ok (l.map .lg)
  | .genres =>
    match newGenres base dataVals with
    | .error e => .error e
    | .ok l => .ok (l.map .ge)
  | .notes =>
    match newNotes base dataVals with
    | .error e => .error e
    | .ok l => .ok (l.map .no)
  | .subjects =>
    match newSubjects base sections dataVals with
    | .error e => .error e
    | .ok l => .ok (l.map .su)
  | .identifiers =>
    match newIdentifiers base dataVals with
    | .error e => .error e
    | .ok l => .ok (l.map .idf)
  | .locations =>
    match newLocations sections dataVals with
    | .error e => .error e
    | .ok l => .ok (l.map .lo)
  | .related =>
    match newRelated base sections dataVals with
    | .error e => .error e
    | .ok l => .ok (l.map .re)

/-- All collections except possibly `c0`, and all flags except possibly
`c0`'s, agree between two mapper states. -/
def presExcept (a b : Mapper) (c0 : Option MCat) : Prop :=
  ∀ c : MCat, some c ≠ c0 → col b.mods c = col a.mods c ∧ catFlag b c = catFlag a c

/-- The origin-info block and its flag agree between two mapper states. -/
def originPres (a b : Mapper) : Prop :=
  b.mods.origin_info = a.mods.origin_info ∧ b.cleared.origin_info = a.cleared.origin_info

theorem titleBranch_target {m : Mapper} {base s dv m'}
    (hok : titleBranch m base s dv = .ok m') :
    catFlag m' .titles = true ∧
    (∃ es, newEnts .titles base s dv = .ok es ∧
      col m'.mods .titles = (if catFlag m .titles then col m.mods .titles else []) ++ es) ∧
    presExcept m m' (some .titles) ∧ originPres m m' := by
  cases hcl : m.cleared.title_info_list <;>
    simp only [titleBranch, hcl, Bool.true_eq_false, Bool.false_eq_true, eq_self_iff_true,
      ite_true, ite_false, if_true, if_false, Except.ok.injEq] at hok <;>
    subst hok <;>
    refine ⟨by simp [catFlag, hcl], ⟨(newTitles base s dv).map .ti, rfl, ?_⟩, ?_, rfl,
      by simp [hcl]⟩ <;>
    first
      | (intro c hc0; cases c <;> simp_all [col, catFlag])
      | simp_all [col, catFlag, List.map_append]

theorem nameBranch_target {m : Mapper} {base : PathElement} {s dv m'}
    (hok : nameBranch m base s dv = .ok m') :
    catFlag m' .names = true ∧
    (∃ es, newEnts .names base s dv = .ok es ∧
      col m'.mods .names = (if catFlag m .names then col m.mods .names else []) ++ es) ∧
    presExcept m m' (some .names) ∧ originPres m m' := by
  cases hnew : newNames base s dv with
  | error e => simp [nameBranch, hnew] at hok
  | ok l =>
    cases hcl : m.cleared.names <;>
      simp only [nameBranch, hnew, hcl, Bool.true_eq_false, Bool.false_eq_true, eq_self_iff_true,
        ite_true, ite_false, if_true, if_false, Except.ok.injEq] at hok <;>
      subst hok <;>
      refine ⟨by simp [catFlag, hcl], ⟨l.map .nm, by simp [newEnts, hnew], ?_⟩, ?_, rfl,
        by simp [hcl]⟩ <;>
      first
        | (intro c hc0; cases c <;> simp_all [col, catFlag])
        | simp_all [col, catFlag, List.map_append]

theorem languageBranch_target {m : Mapper} {base : PathElement} {s dv m'}
    (hok : languageBranch m s dv = .ok m') :
    catFlag m' .languages = true ∧
    (∃ es, newEnts .languages base s dv = .ok es ∧
      col m'.mods .languages = (if catFlag m .languages then col m.mods .languages else []) ++ es) ∧
    presExcept m m' (some .languages) ∧ originPres m m' := by
  cases hnew : newLanguages s dv with
  | error e => simp [languageBranch, hnew] at hok
  | ok l =>
    cases hcl : m.cleared.languages <;>
      simp only [languageBranch, hnew, hcl, Bool.true_eq_false, Bool.false_eq_true, eq_self_iff_true,
        ite_true, ite_false, if_true, if_false, Except.ok.injEq] at hok <;>
      subst hok <;>
      refine ⟨by simp [catFlag, hcl], ⟨l.map .lg, by simp [newEnts, hnew], ?_⟩, ?_, rfl,
        by simp [hcl]⟩ <;>
      first
        | (intro c hc0; cases c <;> simp_all [col, catFlag])
        | simp_all [col, catFlag, List.map_append]

theorem genreBranch_target {m : Mapper} {base : PathElement} {s dv m'}
    (hok : genreBranch m base dv = .ok m') :
    catFlag m' .genres = true ∧
    (∃ es, newEnts .genres base s dv = .ok es ∧
      col m'.mods .genres = (if catFlag m .genres then col m.mods .genres else []) ++ es) ∧
    presExcept m m' (some .genres) ∧ originPres m m' := by
  cases hnew : newGenres base dv with
  | error e => simp [genreBranch, hnew] at hok
  | ok l =>
    cases hcl : m.cleared.genres <;>
      simp only [genreBranch, hnew, hcl, Bool.true_eq_false, Bool.false_eq_true, eq_self_iff_true,
        ite_true, ite_false, if_true, if_false, Except.ok.injEq] at hok <;>
      subst hok <;>
      refine ⟨by simp [catFlag, hcl], ⟨l.map .ge, by simp [newEnts, hnew], ?_⟩, ?_, rfl,
        by simp [hcl]⟩ <;>
      first
        | (intro c hc0; cases c <;> simp_all [col, catFlag])
        | simp_all [col, catFlag, List.map_append]

theorem noteBranch_target {m : Mapper} {base : PathElement} {s dv m'}
    (hok : noteBranch m base dv = .ok m') :
    catFlag m' .notes = true ∧
    (∃ es, newEnts .notes base s dv = .ok es ∧
      col m'.mods .notes = (if catFlag m .notes then col m.mods .notes else []) ++ es) ∧
    presExcept m m' (some .notes) ∧ originPres m m' := by
  cases hnew : newNotes base dv with
  | error e => simp [noteBranch, hnew] at hok
  | ok l =>
    cases hcl : m.cleared.notes <;>
      simp only [noteBranch, hnew, hcl, Bool.true_eq_false, Bool.false_eq_true, eq_self_iff_true,
        ite_true, ite_false, if_true, if_false, Except.ok.injEq] at hok <;>
      subst hok <;>
      refine ⟨by simp [catFlag, hcl], ⟨l.map .no, by simp [newEnts, hnew], ?_⟩, ?_, rfl,
        by simp [hcl]⟩ <;>
      first
        | (intro c hc0; cases c <;> simp_all [col, catFlag])
        | simp_all [col, catFlag, List.map_append]

theorem subjectBranch_target {m : Mapper} {base : PathElement} {s dv m'}
    (hok : subjectBranch m base s dv = .ok m') :
    catFlag m' .subjects = true ∧
    (∃ es, newEnts .subjects base s dv = .ok es ∧
      col m'.mods .subjects = (if catFlag m .subjects then col m.mods .subjects else []) ++ es) ∧
    presExcept m m' (some .subjects) ∧ originPres m m' := by
  cases hnew : newSubjects base s dv with
  | error e => simp [subjectBranch, hnew] at hok
  | ok l =>
    cases hcl : m.cleared.subjects <;>
      simp only [subjectBranch, hnew, hcl, Bool.true_eq_false, Bool.false_eq_true, eq_self_iff_true,
        ite_true, ite_false, if_true, if_false, Except.ok.injEq] at hok <;>
      subst hok <;>
      refine ⟨by simp [catFlag, hcl], ⟨l.map .su, by simp [newEnts, hnew], ?_⟩, ?_, rfl,
        by simp [hcl]⟩ <;>
      first
        | (intro c hc0; cases c <;> simp_all [col, catFlag])
        | simp_all [col, catFlag, List.map_append]

theorem identifierBranch_target {m : Mapper} {base : PathElement} {s dv m'}
    (hok : identifierBranch m base dv = .ok m') :
    catFlag m' .identifiers = true ∧
    (∃ es, newEnts .identifiers base s dv = .ok es ∧
      col m'.mods .identifiers = (if catFlag m .identifiers then col m.mods .identifiers else []) ++ es) ∧
    presExcept m m' (some .identifiers) ∧ originPres m m' := by
  cases hnew : newIdentifiers base dv with
  | error e => simp [identifierBranch, hnew] at hok
  | ok l =>
    cases hcl : m.cleared.identifiers <;>
      simp only [identifierBranch, hnew, hcl, Bool.true_eq_false, Bool.false_eq_true, eq_self_iff_true,
        ite_true, ite_false, if_true, if_false, Except.ok.injEq] at hok <;>
      subst hok <;>
      refine ⟨by simp [catFlag, hcl], ⟨l.map .idf, by simp [newEnts, hnew], ?_⟩, ?_, rfl,
        by simp [hcl]⟩ <;>
      first
        | (intro c hc0; cases c <;> simp_all [col, catFlag])
        | simp_all [col, catFlag, List.map_append]

theorem locationBranch_target {m : Mapper} {base : PathElement} {s dv m'}
    (hok : locationBranch m s dv = .ok m') :
    catFlag m' .locations = true ∧
    (∃ es, newEnts .locations base s dv = .ok es ∧
      col m'.mods .locations = (if catFlag m .locations then col m.mods .locations else []) ++ es) ∧
    presExcept m m' (some .locations) ∧ originPres m m' := by
  cases hnew : newLocations s dv with
  | error e => simp [locationBranch, hnew] at hok
  | ok l =>
    cases hcl : m.cleared.locations <;>
      simp only [locationBranch, hnew, hcl, Bool.true_eq_false, Bool.false_eq_true, eq_self_iff_true,
        ite_true, ite_false, if_true, if_false, Except.ok.injEq] at hok <;>
      subst hok <;>
      refine ⟨by simp [catFlag, hcl], ⟨l.map .lo, by simp [newEnts, hnew], ?_⟩, ?_, rfl,
        by simp [hcl]⟩ <;>
      first
        | (intro c hc0; cases c <;> simp_all [col, catFlag])
        | simp_all [col, catFlag, List.map_append]

theorem relatedBranch_target {m : Mapper} {base : PathElement} {s dv m'}
    (hok : relatedBranch m base s dv = .ok m') :
    catFlag m' .related = true ∧
    (∃ es, newEnts .related base s dv = .ok es ∧
      col m'.mods .related = (if catFlag m .related then col m.mods .related else []) ++ es) ∧
    presExcept m m' (some .related) ∧ originPres m m' := by
  cases hnew : newRelated base s dv with
  | error e => simp [relatedBranch, hnew] at hok
  | ok l =>
    cases hcl : m.cleared.related <;>
      simp only [relatedBranch, hnew, hcl, Bool.true_eq_false, Bool.false_eq_true, eq_self_iff_true,
        ite_true, ite_false, if_true, if_false, Except.ok.injEq] at hok <;>
      subst hok <;>
      refine ⟨by simp [catFlag, hcl], ⟨l.map .re, by simp [newEnts, hnew], ?_⟩, ?_, rfl,
        by simp [hcl]⟩ <;>
      first
        | (intro c hc0; cases c <;> simp_all [col, catFlag])
        | simp_all [col, catFlag, List.map_append]

theorem modsIdBranch_pres {m : Mapper} {base dv m'}
    (hok : modsIdBranch m base dv = .ok m') :
    presExcept m m' none ∧ originPres m m' := by
  simp only [modsIdBranch] at hok
  repeat' split at hok
  all_goals cases hok
  all_goals exact ⟨fun c _ => by cases c <;> simp [col, catFlag], rfl, rfl⟩

theorem resourceTypeBranch_pres {m : Mapper} {dv m'}
    (hok : resourceTypeBranch m dv = .ok m') :
    presExcept m m' none ∧ originPres m m' := by
  simp only [resourceTypeBranch] at hok
  repeat' split at hok
  all_goals cases hok
  all_goals exact ⟨fun c _ => by cases c <;> simp [col, catFlag], rfl, rfl⟩

theorem abstractBranch_pres {m : Mapper} {dv m'}
    (hok : abstractBranch m dv = .ok m') :
    presExcept m m' none ∧ originPres m m' := by
  simp only [abstractBranch] at hok
  repeat' split at hok
  all_goals cases hok
  all_goals exact ⟨fun c _ => by cases c <;> simp [col, catFlag], rfl, rfl⟩

theorem physDescBranch_pres {m : Mapper} {s dv m'}
    (hok : physDescBranch m s dv = .ok m') :
    presExcept m m' none ∧ originPres m m' := by
  simp only [physDescBranch] at hok
  repeat' split at hok
  all_goals cases hok
  all_goals exact ⟨fun c _ => by cases c <;> simp [col, catFlag], rfl, rfl⟩

/-- What a successful bare-`mods:namePart` call does: no flag changes, and
the last name of the document gets one more name part. -/
theorem namePartBranch_spec {m : Mapper} {base dv m'}
    (hok : namePartBranch m base dv = .ok m') :
    ∃ nm divs v, m.mods.names.getLast? = some nm ∧ dv[0]? = some divs ∧
      divs[0]? = some v ∧
      m' = {m with mods := {m.mods with names := m.mods.names.dropLast ++
              [{nm with name_parts := nm.name_parts ++
                  [{text := some v, type := dictGet base.attributes ("type".toList)}]}]}} := by
  unfold namePartBranch at hok
  cases hlast : m.mods.names.getLast? with
  | none => simp [hlast] at hok
  | some nm =>
    simp only [hlast] at hok
    cases hdv : dv[0]? with
    | none => simp [hdv] at hok
    | some divs =>
      simp only [hdv] at hok
      cases hv : divs[0]? with
      | none => simp [hv] at hok
      | some v =>
        simp only [hv, Except.ok.injEq] at hok
        subst hok
        exact ⟨nm, divs, v, rfl, rfl, hv, rfl⟩

theorem namePartBranch_pres {m : Mapper} {base dv m'}
    (hok : namePartBranch m base dv = .ok m') :
    presExcept m m' (some .names) ∧ originPres m m' ∧ m'.cleared = m.cleared ∧
    (col m'.mods .names).length = (col m.mods .names).length := by
  obtain ⟨nm, divs, v, hlast, _, _, hm⟩ := namePartBranch_spec hok
  subst hm
  refine ⟨fun c hc0 => by
    cases c <;> first
      | exact absurd rfl hc0
      | exact ⟨by simp [col], by simp [catFlag]⟩, ⟨rfl, rfl⟩, rfl, ?_⟩
  have hne : m.mods.names ≠ [] := by
    intro h
    rw [h] at hlast
    simp at hlast
  have hpos : 0 < m.mods.names.length := List.length_pos.mpr hne
  simp [col, List.length_dropLast]
  omega

/-- What a successful `mods:originInfo` call does: flag set, all nine list
collections untouched, and the block is the result of
`_add_origin_info_data` applied to the fresh block (first touch) or to the
existing one. -/
theorem originBranch_spec {m : Mapper} {base s dv m'}
    (hok : originBranch m base s dv = .ok m') :
    m'.cleared.origin_info = true ∧ presExcept m m' none ∧
    ∃ oi2, applyOriginInfo base s dv
        (if m.cleared.origin_info = true then m.mods.origin_info.getD emptyOriginInfo
         else emptyOriginInfo) = .ok oi2 ∧
      m'.mods.origin_info = some oi2 := by
  cases hcl : m.cleared.origin_info
  · simp only [originBranch, hcl, eq_self_iff_true, ite_true, if_true] at hok
    cases happ : applyOriginInfo base s dv emptyOriginInfo with
    | error e => simp [happ] at hok
    | ok oi2 =>
      simp only [happ, Except.ok.injEq] at hok
      subst hok
      exact ⟨rfl, fun c _ => by cases c <;> simp [col, catFlag], oi2, by simp [happ], rfl⟩
  · simp only [originBranch, hcl, Bool.true_eq_false, ite_true, ite_false, if_true, if_false,
      eq_self_iff_true] at hok
    cases horig : m.mods.origin_info with
    | none => simp [horig] at hok
    | some oi =>
      rw [horig] at hok
      cases happ : applyOriginInfo base s dv oi with
      | error e => simp [happ] at hok
      | ok oi2 =>
        simp only [happ, Except.ok.injEq] at hok
        subst hok
        exact ⟨by simp [hcl], fun c _ => by cases c <;> simp [col, catFlag], oi2,
          by simp [horig, happ], rfl⟩

/-- The base element names `Mapper.add_data` recognizes, in dispatch
order. -/
def recognizedTags : List Str :=
  ["mods:mods".toList, "mods:name".toList, "mods:namePart".toList,
   "mods:titleInfo".toList, "mods:language".toList, "mods:genre".toList,
   "mods:originInfo".toList, "mods:physicalDescription".toList,
   "mods:typeOfResource".toList, "mods:abstract".toList, "mods:note".toList,
   "mods:subject".toList, "mods:identifier".toList, "mods:location".toList,
   "mods:relatedItem".toList]

theorem dispatch_unhandled {m : Mapper} {base s dv}
    (hb : base.element ∉ recognizedTags) :
    dispatch m base s dv = .error (.unhandledElement base) := by
  have h : ∀ t : Str, t ∈ recognizedTags → base.element ≠ t :=
    fun t ht he => hb (he ▸ ht)
  have h1 : base.element ≠ ("mods:mods".toList) := h ("mods:mods".toList) (by simp [recognizedTags])
  have h2 : base.element ≠ ("mods:name".toList) := h ("mods:name".toList) (by simp [recognizedTags])
  have h3 : base.element ≠ ("mods:namePart".toList) := h ("mods:namePart".toList) (by simp [recognizedTags])
  have h4 : base.element ≠ ("mods:titleInfo".toList) := h ("mods:titleInfo".toList) (by simp [recognizedTags])
  have h5 : base.element ≠ ("mods:language".toList) := h ("mods:language".toList) (by simp [recognizedTags])
  have h6 : base.element ≠ ("mods:genre".toList) := h ("mods:genre".toList) (by simp [recognizedTags])
  have h7 : base.element ≠ ("mods:originInfo".toList) := h ("mods:originInfo".toList) (by simp [recognizedTags])
  have h8 : base.element ≠ ("mods:physicalDescription".toList) := h ("mods:physicalDescription".toList) (by simp [recognizedTags])
  have h9 : base.element ≠ ("mods:typeOfResource".toList) := h ("mods:typeOfResource".toList) (by simp [recognizedTags])
  have h10 : base.element ≠ ("mods:abstract".toList) := h ("mods:abstract".toList) (by simp [recognizedTags])
  have h11 : base.element ≠ ("mods:note".toList) := h ("mods:note".toList) (by simp [recognizedTags])
  have h12 : base.element ≠ ("mods:subject".toList) := h ("mods:subject".toList) (by simp [recognizedTags])
  have h13 : base.element ≠ ("mods:identifier".toList) := h ("mods:identifier".toList) (by simp [recognizedTags])
  have h14 : base.element ≠ ("mods:location".toList) := h ("mods:location".toList) (by simp [recognizedTags])
  have h15 : base.element ≠ ("mods:relatedItem".toList) := h ("mods:relatedItem".toList) (by simp [recognizedTags])
  simp only [dispatch, if_neg h1, if_neg h2, if_neg h3, if_neg h4, if_neg h5, if_neg h6, if_neg h7, if_neg h8, if_neg h9, if_neg h10, if_neg h11, if_neg h12, if_neg h13, if_neg h14, if_neg h15]

theorem dispatch_ok_mem {m : Mapper} {base s dv m'}
    (hok : dispatch m base s dv = .ok m') :
    base.element ∈ recognizedTags := by
  by_contra hm
  rw [dispatch_unhandled hm] at hok
  cases hok

/-- The starting block `_add_origin_info_data` runs against: the existing
one after the first touch, a fresh empty one on the first touch. -/
def startOI (m : Mapper) : OriginInfo :=
  if m.cleared.origin_info = true then m.mods.origin_info.getD emptyOriginInfo
  else emptyOriginInfo

theorem dispatch_target {m : Mapper} {base : PathElement} {s dv m'} (c : MCat)
    (hb : base.element = catTag c) (hok : dispatch m base s dv = .ok m') :
    catFlag m' c = true ∧
    (∃ es, newEnts c base s dv = .ok es ∧
      col m'.mods c = (if catFlag m c then col m.mods c else []) ++ es) ∧
    presExcept m m' (some c) ∧ originPres m m' := by
  obtain ⟨el, attrs, dat⟩ := base
  cases c <;> (dsimp only [catTag] at hb; subst hb)
  case names => exact nameBranch_target hok
  case titles => exact titleBranch_target hok
  case languages => exact languageBranch_target hok
  case genres => exact genreBranch_target hok
  case notes => exact noteBranch_target hok
  case subjects => exact subjectBranch_target hok
  case identifiers => exact identifierBranch_target hok
  case locations => exact locationBranch_target hok
  case related => exact relatedBranch_target hok

theorem dispatch_origin_target {m : Mapper} {base : PathElement} {s dv m'}
    (hb : base.element = ("mods:originInfo".toList))
    (hok : dispatch m base s dv = .ok m') :
    m'.cleared.origin_info = true ∧ presExcept m m' none ∧
    ∃ oi2, applyOriginInfo base s dv (startOI m) = .ok oi2 ∧
      m'.mods.origin_info = some oi2 := by
  obtain ⟨el, attrs, dat⟩ := base
  dsimp only at hb
  subst hb
  exact originBranch_spec hok

theorem dispatch_namePart {m : Mapper} {base : PathElement} {s dv m'}
    (hb : base.element = ("mods:namePart".toList))
    (hok : dispatch m base s dv = .ok m') :
    presExcept m m' (some .names) ∧ originPres m m' ∧ m'.cleared = m.cleared ∧
    (col m'.mods .names).length = (col m.mods .names).length := by
  obtain ⟨el, attrs, dat⟩ := base
  dsimp only at hb
  subst hb
  exact namePartBranch_pres hok

/-- A successful call that does not target a given list category (and is
not a bare `mods:namePart` call) leaves that category's collection and
flag unchanged; a successful call not targeting origin-info leaves the
origin-info block and flag unchanged. -/
theorem dispatch_pres {m : Mapper} {base : PathElement} {s dv m'}
    (hok : dispatch m base s dv = .ok m') :
    (∀ c : MCat, base.element ≠ catTag c → base.element ≠ ("mods:namePart".toList) →
      col m'.mods c = col m.mods c ∧ catFlag m' c = catFlag m c) ∧
    (base.element ≠ ("mods:originInfo".toList) → originPres m m') := by
  have hmem := dispatch_ok_mem hok
  obtain ⟨el, attrs, dat⟩ := base
  simp only [recognizedTags, List.mem_cons, List.not_mem_nil, or_false] at hmem
  dsimp only at hmem hok ⊢
  have hOfTarget : ∀ c0 : MCat, el = catTag c0 →
      (catFlag m' c0 = true ∧
        (∃ es, newEnts c0 ⟨el, attrs, dat⟩ s dv = .ok es ∧
          col m'.mods c0 = (if catFlag m c0 then col m.mods c0 else []) ++ es) ∧
        presExcept m m' (some c0) ∧ originPres m m') →
      (∀ c : MCat, el ≠ catTag c → el ≠ ("mods:namePart".toList) →
        col m'.mods c = col m.mods c ∧ catFlag m' c = catFlag m c) ∧
      (el ≠ ("mods:originInfo".toList) → originPres m m') := by
    intro c0 he ⟨_, _, hp, ho⟩
    refine ⟨fun c hc _ => hp c ?_, fun _ => ho⟩
    intro hsome
    exact hc (by rw [Option.some.inj hsome, ← he])
  have hOfPres : presExcept m m' none → originPres m m' →
      (∀ c : MCat, el ≠ catTag c → el ≠ ("mods:namePart".toList) →
        col m'.mods c = col m.mods c ∧ catFlag m' c = catFlag m c) ∧
      (el ≠ ("mods:originInfo".toList) → originPres m m') := by
    intro hp ho
    exact ⟨fun c _ _ => hp c (by simp), fun _ => ho⟩
  rcases hmem with h|h|h|h|h|h|h|h|h|h|h|h|h|h|h <;> subst h
  · exact hOfPres (modsIdBranch_pres hok).1 (modsIdBranch_pres hok).2
  · exact hOfTarget .names rfl (nameBranch_target hok)
  · -- bare namePart: excluded by the hypothesis of the first conjunct
    obtain ⟨hp, ho, _, _⟩ := @namePartBranch_pres m ⟨_, attrs, dat⟩ _ _ hok
    exact ⟨fun c _ hnp => absurd rfl hnp, fun _ => ho⟩
  · exact hOfTarget .titles rfl (titleBranch_target hok)
  · exact hOfTarget .languages rfl (languageBranch_target hok)
  · exact hOfTarget .genres rfl (genreBranch_target hok)
  · -- originInfo
    obtain ⟨_, hp, _⟩ := originBranch_spec (m := m) hok
    exact ⟨fun c _ _ => hp c (by simp), fun horr => absurd rfl horr⟩
  · exact hOfPres (physDescBranch_pres hok).1 (physDescBranch_pres hok).2
  · exact hOfPres (resourceTypeBranch_pres hok).1 (resourceTypeBranch_pres hok).2
  · exact hOfPres (abstractBranch_pres hok).1 (abstractBranch_pres hok).2
  · exact hOfTarget .notes rfl (noteBranch_target hok)
  · exact hOfTarget .subjects rfl (subjectBranch_target hok)
  · exact hOfTarget .identifiers rfl (identifierBranch_target hok)
  · exact hOfTarget .locations rfl (locationBranch_target hok)
  · exact hOfTarget .related rfl (relatedBranch_target hok)

/-! ## Run-level bookkeeping: which calls of a record target which
category, and what they contribute. -/

/-- Does a call with this path target the list category `c`? -/
def targetsCat (path : Str) (c : MCat) : Bool :=
  match parseLoc path with
  | .error _ => false
  | .ok p => decide (p.base.element = catTag c)

/-- Does some call of the record target `c`? -/
def touchedCat (calls : List (Str × Str)) (c : MCat) : Bool :=
  calls.any (fun pd => targetsCat pd.1 c)

/-- The entries a call contributes to category `c` (empty when it does not
target `c`, fails, or its split runs out of fuel). -/
def entsOfCall (fuel : Nat) (pd : Str × Str) (c : MCat) : List MEnt :=
  match parseLoc pd.1 with
  | .error _ => []
  | .ok p =>
    if p.base.element = catTag c then
      match dataValsOf fuel p.hasSectionedData pd.2 with
      | none => []
      | some dv =>
        match newEnts c p.base p.sections dv with
        | .error _ => []
        | .ok es => es
    else []

/-- All entries the record's calls contribute to `c`, in call order. -/
def entsOf (fuel : Nat) (calls : List (Str × Str)) (c : MCat) : List MEnt :=
  (calls.map (fun pd => entsOfCall fuel pd c)).flatten

def targetsOrigin (path : Str) : Bool :=
  match parseLoc path with
  | .error _ => false
  | .ok p => decide (p.base.element = ("mods:originInfo".toList))

def touchedOrigin (calls : List (Str × Str)) : Bool :=
  calls.any (fun pd => targetsOrigin pd.1)

/-- The effect of one call on the origin-info block (identity when the
call does not target origin-info, fails, or runs out of fuel). -/
def applyOICall (fuel : Nat) (oi : OriginInfo) (pd : Str × Str) : OriginInfo :=
  match parseLoc pd.1 with
  | .error _ => oi
  | .ok p =>
    if p.base.element = ("mods:originInfo".toList) then
      match dataValsOf fuel p.hasSectionedData pd.2 with
      | none => oi
      | some dv =>
        match applyOriginInfo p.base p.sections dv oi with
        | .error _ => oi
        | .ok oi2 => oi2
    else oi

theorem entsOf_cons (fuel : Nat) (pd : Str × Str) (rest : List (Str × Str)) (c : MCat) :
    entsOf fuel (pd :: rest) c = entsOfCall fuel pd c ++ entsOf fuel rest c := rfl

theorem foldl_applyOICall_id (fuel : Nat) (calls : List (Str × Str))
    (h : touchedOrigin calls = false) (oi : OriginInfo) :
    calls.foldl (applyOICall fuel) oi = oi := by
  induction calls generalizing oi with
  | nil => rfl
  | cons pd rest ih =>
    simp only [touchedOrigin, List.any_cons, Bool.or_eq_false_iff] at h
    have hid : applyOICall fuel oi pd = oi := by
      unfold applyOICall
      cases hp : parseLoc pd.1 with
      | error e => rfl
      | ok p =>
        have hd : decide (p.base.element = ("mods:originInfo".toList)) = false := by
          have h1 := h.1
          unfold targetsOrigin at h1
          rw [hp] at h1
          exact h1
        simp only [hp]
        rw [if_neg (of_decide_eq_false hd)]
    rw [List.foldl_cons, hid]
    exact ih h.2 oi

/-- The per-record accumulation law for the nine list categories: after a
successful run, the collection is what the parent contributed (dropped as
soon as the category is touched, kept if never touched, emptied-once at
the first touch) followed by every targeting call's entries in order; the
cleared flag records exactly whether the category was touched. -/
theorem runCalls_cat (fuel : Nat) (calls : List (Str × Str)) (m m' : Mapper) (c : MCat)
    (hrun : runCalls fuel m calls = some (.ok m'))
    (hnp : ∀ pd ∈ calls, ∀ p, parseLoc pd.1 = .ok p →
      p.base.element ≠ ("mods:namePart".toList)) :
    col m'.mods c =
      (if touchedCat calls c = true then
        (if catFlag m c = true then col m.mods c else [])
       else col m.mods c) ++ entsOf fuel calls c
    ∧ catFlag m' c = (catFlag m c || touchedCat calls c) := by
  induction calls generalizing m with
  | nil =>
    simp only [runCalls, Option.some.injEq, Except.ok.injEq] at hrun
    subst hrun
    simp [touchedCat, entsOf]
  | cons pd rest ih =>
    unfold runCalls at hrun
    cases had : addData fuel m pd.1 pd.2 with
    | none => simp [had] at hrun
    | some r =>
      cases r with
      | error e => simp [had] at hrun
      | ok m1 =>
        simp only [had] at hrun
        unfold addData at had
        cases hp : parseLoc pd.1 with
        | error e => simp [hp] at had
        | ok p =>
          simp only [hp] at had
          cases hdv : dataValsOf fuel p.hasSectionedData pd.2 with
          | none => simp [hdv] at had
          | some dv =>
            simp only [hdv, Option.some.injEq] at had
            have hdisp : dispatch m p.base p.sections dv = .ok m1 := had
            have hrest := ih m1 hrun
              (fun q hq => hnp q (List.mem_cons_of_mem pd hq))
            have hnp1 := hnp pd (List.mem_cons_self pd rest) p hp
            by_cases htg : p.base.element = catTag c
            · obtain ⟨hflag1, ⟨es, hes, hcol1⟩, _, _⟩ := dispatch_target c htg hdisp
              have htg0 : targetsCat pd.1 c = true := by
                unfold targetsCat
                rw [hp]
                exact decide_eq_true htg
              have htc : touchedCat (pd :: rest) c = true := by
                unfold touchedCat
                rw [List.any_cons, htg0]
                simp
              have hec : entsOfCall fuel pd c = es := by
                unfold entsOfCall
                simp only [hp]
                rw [if_pos htg]
                simp only [hdv, hes]
              constructor
              · rw [hrest.1, hcol1, hflag1]
                rw [htc, entsOf_cons, hec]
                cases htr : touchedCat rest c <;> simp [List.append_assoc]
              · rw [hrest.2, hflag1, htc]
                simp
            · obtain ⟨hcolp, hflagp⟩ := (dispatch_pres hdisp).1 c htg hnp1
              have htg0 : targetsCat pd.1 c = false := by
                unfold targetsCat
                rw [hp]
                exact decide_eq_false htg
              have htc : touchedCat (pd :: rest) c = touchedCat rest c := by
                unfold touchedCat
                rw [List.any_cons, htg0]
                simp
              have hec : entsOfCall fuel pd c = [] := by
                unfold entsOfCall
                simp only [hp]
                rw [if_neg htg]
              constructor
              · rw [hrest.1, hcolp, hflagp, htc, entsOf_cons, hec]
                simp
              · rw [hrest.2, hflagp, htc]

/-- The per-record accumulation law for the origin-info block. -/
theorem runCalls_origin (fuel : Nat) (calls : List (Str × Str)) (m m' : Mapper)
    (hrun : runCalls fuel m calls = some (.ok m')) :
    m'.cleared.origin_info = (m.cleared.origin_info || touchedOrigin calls) ∧
    m'.mods.origin_info =
      (if touchedOrigin calls = true then
        some (calls.foldl (applyOICall fuel) (startOI m))
       else m.mods.origin_info) := by
  induction calls generalizing m with
  | nil =>
    simp only [runCalls, Option.some.injEq, Except.ok.injEq] at hrun
    subst hrun
    simp [touchedOrigin]
  | cons pd rest ih =>
    unfold runCalls at hrun
    cases had : addData fuel m pd.1 pd.2 with
    | none => simp [had] at hrun
    | some r =>
      cases r with
      | error e => simp [had] at hrun
      | ok m1 =>
        simp only [had] at hrun
        unfold addData at had
        cases hp : parseLoc pd.1 with
        | error e => simp [hp] at had
        | ok p =>
          simp only [hp] at had
          cases hdv : dataValsOf fuel p.hasSectionedData pd.2 with
          | none => simp [hdv] at had
          | some dv =>
            simp only [hdv, Option.some.injEq] at had
            have hdisp : dispatch m p.base p.sections dv = .ok m1 := had
            have hrest := ih m1 hrun
            by_cases htg : p.base.element = ("mods:originInfo".toList)
            · obtain ⟨hflag1, _, oi2, happ, horig1⟩ := dispatch_origin_target htg hdisp
              have htg0 : targetsOrigin pd.1 = true := by
                unfold targetsOrigin
                rw [hp]
                exact decide_eq_true htg
              have htc : touchedOrigin (pd :: rest) = true := by
                unfold touchedOrigin
                rw [List.any_cons, htg0]
                simp
              have hstep : applyOICall fuel (startOI m) pd = oi2 := by
                unfold applyOICall
                simp only [hp]
                rw [if_pos htg]
                simp only [hdv, happ]
              have hstart1 : startOI m1 = oi2 := by
                simp [startOI, hflag1, horig1]
              constructor
              · rw [hrest.1, hflag1, htc]
                simp
              · rw [hrest.2, htc, List.foldl_cons, hstep, ← hstart1]
                cases htr : touchedOrigin rest
                · rw [foldl_applyOICall_id fuel rest htr]
                  simp [horig1, hstart1]
                · simp
            · obtain ⟨horigp, hflagp⟩ := (dispatch_pres hdisp).2 htg
              have htg0 : targetsOrigin pd.1 = false := by
                unfold targetsOrigin
                rw [hp]
                exact decide_eq_false htg
              have htc : touchedOrigin (pd :: rest) = touchedOrigin rest := by
                unfold touchedOrigin
                rw [List.any_cons, htg0]
                simp
              have hstep : applyOICall fuel (startOI m) pd = startOI m := by
                unfold applyOICall
                simp only [hp]
                rw [if_neg htg]
              have hstart1 : startOI m1 = startOI m := by
                simp [startOI, horigp, hflagp]
              constructor
              · rw [hrest.1, hflagp, htc]
              · rw [hrest.2, htc, List.foldl_cons, hstep, hstart1, horigp]

/-- Does a call with this path use the bare `mods:namePart` category
(which is exempt from the reset rule and edits the last name in place)? -/
def targetsNamePart (path : Str) : Bool :=
  match parseLoc path with
  | .error _ => false
  | .ok p => decide (p.base.element = ("mods:namePart".toList))

/-- C1: first-touch reset.  For a mapper started on a parent document and
fed a record's calls (none of them bare `mods:namePart`, which is its own
in-place category), every multi-valued list category ends as: the parent's
entries if the category was never targeted (and nothing else), else the
concatenation of all targeting calls' entries in order with the inherited
entries gone; the cleared flag records exactly whether the category was
touched (so the collection is cleared exactly once, at the first touch,
and later calls only append).  The origin-info block likewise keeps the
parent's block when untouched and otherwise is rebuilt from a fresh empty
block by the targeting calls in order. -/
theorem c1_first_touch_reset (fuel : Nat) (parent : Mods)
    (calls : List (Str × Str)) (m' : Mapper)
    (hrun : runCalls fuel (initMapper (some parent)) calls = some (.ok m'))
    (hnp : ∀ pd ∈ calls, targetsNamePart pd.1 = false) :
    (∀ c : MCat,
      col m'.mods c =
        (if touchedCat calls c = true then [] else col parent c) ++ entsOf fuel calls c ∧
      catFlag m' c = touchedCat calls c) ∧
    m'.cleared.origin_info = touchedOrigin calls ∧
    m'.mods.origin_info =
      (if touchedOrigin calls = true then
        some (calls.foldl (applyOICall fuel) emptyOriginInfo)
       else parent.origin_info) := by
  have hnp' : ∀ pd ∈ calls, ∀ p, parseLoc pd.1 = .ok p →
      p.base.element ≠ ("mods:namePart".toList) := by
    intro pd hpd p hp
    have h := hnp pd hpd
    unfold targetsNamePart at h
    rw [hp] at h
    exact of_decide_eq_false h
  have hinitflag : ∀ c : MCat, catFlag (initMapper (some parent)) c = false := by
    intro c
    cases c <;> rfl
  have hinitcol : ∀ c : MCat, col (initMapper (some parent)).mods c = col parent c := by
    intro c
    rfl
  refine ⟨fun c => ?_, ?_, ?_⟩
  · obtain ⟨hcol, hflag⟩ := runCalls_cat fuel calls _ m' c hrun hnp'
    rw [hinitflag c, hinitcol c] at hcol
    rw [hinitflag c] at hflag
    constructor
    · rw [hcol]
      cases htc : touchedCat calls c <;> simp
    · rw [hflag]
      simp
  · obtain ⟨hflag, _⟩ := runCalls_origin fuel calls _ m' hrun
    rw [hflag]
    simp [initMapper, noCleared]
  · obtain ⟨_, horig⟩ := runCalls_origin fuel calls _ m' hrun
    rw [horig]
    have hs : startOI (initMapper (some parent)) = emptyOriginInfo := rfl
    rw [hs]
    rfl

/-- A concrete parent document for the C1 witness: one inherited note and
one inherited genre. -/
def c1parent : Mods :=
  {emptyMods with
    notes := [{text := ("old note".toList), type := none, label := none}],
    genres := [{text := ("old genre".toList), authority := none}]}

/-- Two columns feeding `mods:note` (and nothing feeding `mods:genre`). -/
def c1calls : List (Str × Str) :=
  [(("<mods:note>".toList), ("n1".toList)),
   (("<mods:note>".toList), ("n2||n3".toList))]

def c1result : Mapper :=
  match runCalls 10 (initMapper (some c1parent)) c1calls with
  | some (.ok m) => m
  | _ => initMapper none

theorem c1_first_touch_reset_witness :
    col c1result.mods .notes = [] ++ entsOf 10 c1calls .notes ∧
    catFlag c1result .notes = true ∧
    col c1result.mods .genres = col c1parent .genres ++ entsOf 10 c1calls .genres ∧
    c1result.mods.origin_info = c1parent.origin_info ∧
    (entsOf 10 c1calls .notes).length = 3 := by
  have h := c1_first_touch_reset 10 c1parent c1calls c1result rfl (by decide)
  exact ⟨(h.1 .notes).1, (h.1 .notes).2, (h.1 .genres).1, h.2.2, by decide⟩

theorem mapME_ok_length {α β : Type} {f : α → Except MapErr β} {l : List α}
    {res : List β} (h : mapME f l = .ok res) : res.length = l.length := by
  induction l generalizing res with
  | nil =>
    simp only [mapME, Except.ok.injEq] at h
    subst h
    rfl
  | cons a rest ih =>
    unfold mapME at h
    cases hf : f a with
    | error e => simp [hf] at h
    | ok b =>
      simp only [hf] at h
      cases hr : mapME f rest with
      | error e => simp [hr] at h
      | ok bs =>
        simp only [hr, Except.ok.injEq] at h
        subst h
        simp [ih hr]

theorem mapMO_some_length {α β : Type} {f : α → Option β} {l : List α}
    {res : List β} (h : mapMO f l = some res) : res.length = l.length := by
  induction l generalizing res with
  | nil =>
    simp only [mapMO, Option.some.injEq] at h
    subst h
    rfl
  | cons a rest ih =>
    unfold mapMO at h
    cases hf : f a with
    | none => simp [hf] at h
    | some b =>
      simp only [hf] at h
      cases hr : mapMO f rest with
      | none => simp [hr] at h
      | some bs =>
        simp only [hr, Option.some.injEq] at h
        subst h
        simp [ih hr]

/-- C9: entries that are empty after trimming are silently discarded — the
cell value is split on `'||'`, each entry trimmed, only non-empty trimmed
entries become data groups; `"a||"` and `"a|| ||b"` produce no empty
group; and the number of entries a repeatable category (here `mods:note`)
creates equals the number of non-empty trimmed pieces. -/
theorem c9_empty_entries_dropped :
    (∀ data : Str, ∀ e ∈ splitEntries data, e ≠ []) ∧
    splitEntries ("a||".toList) = [("a".toList)] ∧
    splitEntries ("a|| ||b".toList) = [("a".toList), ("b".toList)] ∧
    (∀ (fuel : Nat) (m : Mapper) (path data : Str) (m' : Mapper) (p : ParsedLoc),
      parseLoc path = .ok p → p.base.element = ("mods:note".toList) →
      addData fuel m path data = some (.ok m') →
      m'.mods.notes.length =
        (if m.cleared.notes = true then m.mods.notes.length else 0) +
          (splitEntries data).length) := by
  refine ⟨?_, by decide, by decide, ?_⟩
  · intro data e he
    have := List.of_mem_filter he
    simpa using this
  · intro fuel m path data m' p hp hb had
    unfold addData at had
    simp only [hp] at had
    cases hdv : dataValsOf fuel p.hasSectionedData data with
    | none => simp [hdv] at had
    | some dv =>
      simp only [hdv, Option.some.injEq] at had
      obtain ⟨_, ⟨es, hes, hcol⟩, _, _⟩ := dispatch_target .notes hb had
      have hdvlen : dv.length = (splitEntries data).length :=
        mapMO_some_length hdv
      unfold newEnts at hes
      cases hn : newNotes p.base dv with
      | error e => simp [hn] at hes
      | ok l =>
        simp only [hn, Except.ok.injEq] at hes
        subst hes
        have hllen : l.length = dv.length := mapME_ok_length hn
        have hcl : (col m'.mods .notes).length =
            ((if catFlag m .notes = true then col m.mods .notes else []) ++
              (l.map MEnt.no)).length := by rw [hcol]
        simp only [col, List.length_append, List.length_map] at hcl
        rw [hcl, hllen, hdvlen]
        cases hfl : m.cleared.notes <;>
          simp [catFlag, hfl]

/-! ## Facts about the escape-aware division split (`_get_data_divs`) -/

theorem findChar_some_lt {c : Char} {s : Str} {i : Nat}
    (h : findChar c s = some i) : i < s.length := by
  induction s generalizing i with
  | nil => cases h
  | cons a rest ih =>
    unfold findChar at h
    by_cases ha : a = c
    · rw [if_pos ha] at h
      cases h
      simp
    · rw [if_neg ha] at h
      cases hr : findChar c rest with
      | none => rw [hr] at h; cases h
      | some j =>
        rw [hr] at h
        simp only [Option.map_some', Option.some.injEq] at h
        subst h
        have := ih hr
        simp
        omega

theorem findChar_none_split {c : Char} {s : Str}
    (h : findChar c s = none) : splitChar c s = [s] := by
  induction s with
  | nil => rfl
  | cons a rest ih =>
    unfold findChar at h
    by_cases ha : a = c
    · rw [if_pos ha] at h; cases h
    · rw [if_neg ha] at h
      have hr : findChar c rest = none := by
        cases hr : findChar c rest with
        | none => rfl
        | some j => rw [hr] at h; cases h
      unfold splitChar
      rw [if_neg ha, ih hr]

theorem splitChar_ne_nil (c : Char) (s : Str) : splitChar c s ≠ [] := by
  cases s with
  | nil => simp [splitChar]
  | cons a rest =>
    unfold splitChar
    by_cases ha : a = c
    · rw [if_pos ha]; simp
    · rw [if_neg ha]
      cases splitChar c rest <;> simp

theorem findChar_cons_split {c : Char} {s : Str} {i : Nat}
    (h : findChar c s = some i) :
    splitChar c s = s.take i :: splitChar c (s.drop (i + 1)) := by
  induction s generalizing i with
  | nil => cases h
  | cons a rest ih =>
    unfold findChar at h
    by_cases ha : a = c
    · rw [if_pos ha] at h
      cases h
      conv_lhs => rw [splitChar]
      rw [if_pos ha]
      simp
    · rw [if_neg ha] at h
      cases hr : findChar c rest with
      | none => rw [hr] at h; cases h
      | some j =>
        rw [hr] at h
        simp only [Option.map_some', Option.some.injEq] at h
        subst h
        conv_lhs => rw [splitChar]
        rw [if_neg ha, ih hr]
        simp

theorem pyIndex_natCast (s : Str) (i : Nat) : pyIndex s (i : Int) = s[i]? := by
  have h1 : ¬((i : Int) < 0) := by omega
  have h2 : ((i : Int)).toNat = i := by omega
  simp [pyIndex, h1, h2]

theorem pyIndex_neg_one (s : Str) : pyIndex s (-1) = s.getLast? := by
  cases s with
  | nil => rfl
  | cons a rest =>
    have h2 : (((a :: rest : Str).length : Int) + -1).toNat = (a :: rest).length - 1 := by
      simp
    simp only [pyIndex, List.getLast?_eq_getElem?]
    norm_num [h2]

theorem pySlice_zero_neg_one (s : Str) : pySlice s 0 (-1) = s.dropLast := by
  have h1 : (max ((s.length : Int) + -1) 0).toNat = s.length - 1 := by omega
  simp [pySlice, h1, List.dropLast_eq_take]

theorem pyIndex_mem {s : Str} {i : Int} {ch : Char}
    (h : pyIndex s i = some ch) : ch ∈ s := by
  simp only [pyIndex] at h
  by_cases hj : (if i < 0 then (s.length : Int) + i else i) < 0
  · rw [if_pos hj] at h; cases h
  · rw [if_neg hj] at h
    rcases List.getElem?_eq_some.mp h with ⟨hlt, hv⟩
    rw [← hv]
    exact List.getElem_mem hlt

/-- One non-escaping step of the inner loop. -/
theorem escLoopGo_no_esc {fuel : Nat} {data : Str} {ind : Nat} {ch : Char}
    (hch : pyIndex data ((ind : Int) - 1) = some ch) (hne : ch ≠ '\\') :
    escLoopGo (fuel + 1) data ind = some (data, some ind) := by
  unfold escLoopGo
  simp only [hch]
  rw [if_neg hne]

/-- The expected result of `_get_data_divs` on escape-free data: the
`'#'`-split with a single zero-length trailing division removed. -/
def expectedDivs (data : Str) : List Str :=
  let ps := splitChar '#' data
  if ps.getLast? = some [] then ps.dropLast else ps

theorem expectedDivs_cons {data : Str} {i : Nat}
    (h : findChar '#' data = some i) :
    expectedDivs data = data.take i :: expectedDivs (data.drop (i + 1)) := by
  unfold expectedDivs
  rw [findChar_cons_split h]
  cases hq : splitChar '#' (data.drop (i + 1)) with
  | nil => exact absurd hq (splitChar_ne_nil '#' _)
  | cons q qs =>
    by_cases hlast : (q :: qs).getLast? = some ([] : Str)
    · simp [hlast]
    · simp [hlast]

theorem expectedDivs_no_hash {data : Str} (hne : data ≠ [])
    (h : findChar '#' data = none) : expectedDivs data = [data] := by
  unfold expectedDivs
  rw [findChar_none_split h]
  simp [hne]

/-- C3 (amended) core: on every escape-free datum, with sufficient fuel the
split returns the `'#'`-split with the zero-length trailing division (when
there is one) dropped. -/
theorem divsGo_no_escape (fuel : Nat) :
    ∀ data : Str, ('\\' ∉ data) → data.length < fuel →
      divsGo fuel data = some (expectedDivs data) := by
  induction fuel with
  | zero => intro data _ h; omega
  | succ fuel ih =>
    intro data hesc hlen
    by_cases hnil : data = []
    · subst hnil
      simp [divsGo, expectedDivs, splitChar]
    · unfold divsGo
      rw [if_neg hnil]
      cases hfind : findChar '#' data with
      | none =>
        simp only [hfind]
        rw [expectedDivs_no_hash hnil hfind]
      | some ind =>
        have hstep : ∃ ch, pyIndex data ((ind : Int) - 1) = some ch ∧ ch ≠ '\\' := by
          cases ind with
          | zero =>
            have : pyIndex data (((0 : Nat) : Int) - 1) = data.getLast? := by
              norm_num [pyIndex_neg_one]
            cases hg : data.getLast? with
            | none => simp [List.getLast?_eq_none_iff] at hg; exact absurd hg hnil
            | some ch =>
              refine ⟨ch, by rw [this, hg], fun hcc => hesc ?_⟩
              subst hcc
              rw [List.getLast?_eq_getElem?] at hg
              rcases List.getElem?_eq_some.mp hg with ⟨hlt, hv⟩
              rw [← hv]
              exact List.getElem_mem hlt
          | succ k =>
            have hk : k < data.length := by
              have := findChar_some_lt hfind
              omega
            have : pyIndex data (((k + 1 : Nat) : Int) - 1) = data[k]? := by
              have h1 : (((k + 1 : Nat) : Int) - 1) = ((k : Nat) : Int) := by omega
              rw [h1, pyIndex_natCast]
            cases hg : data[k]? with
            | none => rw [List.getElem?_eq_none_iff] at hg; omega
            | some ch =>
              refine ⟨ch, by rw [this, hg], fun hcc => hesc ?_⟩
              subst hcc
              rcases List.getElem?_eq_some.mp hg with ⟨hlt, hv⟩
              rw [← hv]
              exact List.getElem_mem hlt
        obtain ⟨ch, hch, hne⟩ := hstep
        have hdroplen : (data.drop (ind + 1)).length < fuel := by
          have h1 := findChar_some_lt hfind
          simp only [List.length_drop]
          omega
        have hesc' : '\\' ∉ data.drop (ind + 1) :=
          fun hm => hesc (List.mem_of_mem_drop hm)
        simp only [hfind, escLoopGo_no_esc hch hne, ih (data.drop (ind + 1)) hesc' hdroplen]
        rw [expectedDivs_cons hfind]

theorem findChar_head {c : Char} {s : Str} (h : s.head? = some c) :
    findChar c s = some 0 := by
  cases s with
  | nil => cases h
  | cons a rest =>
    simp only [List.head?_cons, Option.some.injEq] at h
    subst h
    simp [findChar]

theorem dropLast_head? {s : Str} (h : 2 ≤ s.length) :
    s.dropLast.head? = s.head? := by
  cases s with
  | nil => simp at h
  | cons a rest =>
    cases rest with
    | nil => simp at h
    | cons b t => simp [List.dropLast]

/-- The wrap-around divergence of the inner escape loop: on data that
starts with the divider and ends with the escape character, the rewrite
step `data = data[:ind-1] + data[ind:]` (with `ind = 0`) maps the data to
`dropLast data ++ data`, which again starts with `'#'` and ends with
`'\'`, so the loop exhausts every fuel. -/
theorem escLoopGo_wrap_none (fuel : Nat) :
    ∀ data : Str, data.head? = some '#' → data.getLast? = some '\\' →
      2 ≤ data.length → escLoopGo fuel data 0 = none := by
  induction fuel with
  | zero => intro data _ _ _; rfl
  | succ fuel ih =>
    intro data hh hl hlen
    have hne : data ≠ [] := by
      intro h
      rw [h] at hh
      cases hh
    have hpy : pyIndex data (((0 : Nat) : Int) - 1) = some '\\' := by
      norm_num [pyIndex_neg_one, hl]
    unfold escLoopGo
    simp only [hpy, if_true, ite_true]
    have hslice : pySlice data 0 (((0 : Nat) : Int) - 1) ++ data.drop 0 =
        data.dropLast ++ data := by
      norm_num [pySlice_zero_neg_one]
    rw [hslice]
    have hh' : (data.dropLast ++ data).head? = some '#' := by
      rw [List.head?_append_of_ne_nil]
      · rw [dropLast_head? hlen]
        exact hh
      · intro hdl
        have : data.dropLast.length = 0 := by rw [hdl]; rfl
        rw [List.length_dropLast] at this
        omega
    have hfind : findFrom '#' (data.dropLast ++ data) 0 = some 0 := by
      unfold findFrom
      rw [List.drop_zero, findChar_head hh']
      rfl
    simp only [hfind]
    exact ih (data.dropLast ++ data) hh'
      (by rw [List.getLast?_append, hl]; rfl)
      (by rw [List.length_append, List.length_dropLast]; omega)

/-- The outer split loop inherits the divergence. -/
theorem divsGo_wrap_none (fuel : Nat) (data : Str)
    (hh : data.head? = some '#') (hl : data.getLast? = some '\\') :
    divsGo fuel data = none := by
  have hne : data ≠ [] := by
    intro h
    rw [h] at hh
    cases hh
  have hlen : 2 ≤ data.length := by
    cases data with
    | nil => cases hh
    | cons a rest =>
      cases rest with
      | nil =>
        simp only [List.head?_cons, Option.some.injEq] at hh
        simp only [List.getLast?_singleton, Option.some.injEq] at hl
        subst hh
        cases hl
      | cons b t => simp
  cases fuel with
  | zero => simp [divsGo, hne]
  | succ fuel =>
    unfold divsGo
    rw [if_neg hne]
    simp only [findChar_head hh, escLoopGo_wrap_none (fuel + 1) data hh hl hlen]

/-- A leading unescaped divider does split (yielding a leading empty
division) when the entry does not end with the escape character. -/
theorem divsGo_leading_split (fuel : Nat) (rest : Str) (divs : List Str)
    (hl : ('#' :: rest : Str).getLast? ≠ some '\\')
    (h : divsGo fuel rest = some divs) :
    divsGo (fuel + 1) ('#' :: rest) = some ([] :: divs) := by
  cases hg : ('#' :: rest : Str).getLast? with
  | none => cases rest <;> simp [List.getLast?] at hg
  | some ch =>
    have hchne : ch ≠ '\\' := by
      intro hch
      rw [hch] at hg
      exact hl hg
    have hpy : pyIndex ('#' :: rest : Str) (((0 : Nat) : Int) - 1) = some ch := by
      norm_num [pyIndex_neg_one, hg]
    unfold divsGo
    rw [if_neg (by simp)]
    simp only [findChar_head (s := ('#' :: rest : Str)) rfl, escLoopGo_no_esc hpy hchne,
      List.drop_succ_cons, List.drop_zero, h, List.take_zero]

/-- The as-written claim about entries that start with `'#'` and end with
`'\'` is false: instead of keeping the divider literally and removing the
final backslash, the split never terminates. -/
def splitDiverges (data : Str) : Prop :=
  ∀ fuel : Nat, divsGo fuel data = none

/-- C10 counterexample: on the entry `"#a\"` the claim predicts the single
division `"#a"`; the code's split exhausts every fuel instead (the Python
loop runs forever), so no fuel yields `["#a"]` — or anything at all. -/
theorem c10_counterexample :
    splitDiverges ("#a\\".toList) ∧
    ("#a\\".toList).head? = some '#' ∧ ("#a\\".toList).getLast? = some '\\' := by
  refine ⟨fun fuel => divsGo_wrap_none fuel _ rfl rfl, rfl, rfl⟩

/-- C10 (amended): the escape lookbehind wraps around at position 0, and
for every entry starting with the divider and ending with the escape
character the rewrite step reproduces a state of the same shape, so the
split diverges (exhausts all fuel); an entry starting with `'#'` whose
last character is not `'\'` does split at the leading divider, producing a
leading empty division. -/
theorem c10_escape_lookbehind_wraps :
    (∀ (fuel : Nat) (data : Str), data.head? = some '#' →
      data.getLast? = some '\\' → divsGo fuel data = none) ∧
    (∀ (fuel : Nat) (rest : Str) (divs : List Str),
      ('#' :: rest : Str).getLast? ≠ some '\\' →
      divsGo fuel rest = some divs →
      divsGo (fuel + 1) ('#' :: rest) = some ([] :: divs)) :=
  ⟨fun fuel data hh hl => divsGo_wrap_none fuel data hh hl,
   fun fuel rest divs hl h => divsGo_leading_split fuel rest divs hl h⟩

theorem c10_escape_lookbehind_wraps_witness :
    divsGo 7 ("#ab\\".toList) = none ∧
    divsGo 3 ("#ab".toList) = some [[], ("ab".toList)] := by
  constructor
  · exact c10_escape_lookbehind_wraps.1 7 ("#ab\\".toList) rfl rfl
  · exact c10_escape_lookbehind_wraps.2 2 ("ab".toList) [("ab".toList)] (by decide) rfl

/-- C3 counterexample: an entry ending in an unescaped `'#'` does NOT keep
a final empty division — `"a#"` splits to `["a"]`, not `["a", ""]`. -/
theorem c3_counterexample :
    divsGo 10 ("a#".toList) = some [("a".toList)] ∧
    divsGo 10 ("a#".toList) ≠ some [("a".toList), ([] : Str)] := by
  exact ⟨rfl, by decide⟩

/-- C3 (amended): zero-length interior divisions are preserved, but the
zero-length trailing division is dropped — the split loop stops when the
remainder after a final `'#'` is empty.  For every escape-free entry the
result is exactly the `'#'`-split with one trailing empty piece (when
present) removed. -/
theorem c3_trailing_empty_division_dropped :
    (∀ (fuel : Nat) (data : Str), ('\\' ∉ data) → data.length < fuel →
      divsGo fuel data = some (expectedDivs data)) ∧
    divsGo 10 ("a##b".toList) = some [("a".toList), [], ("b".toList)] ∧
    divsGo 10 ("a#".toList) = some [("a".toList)] :=
  ⟨fun fuel data h hl => divsGo_no_escape fuel data h hl, rfl, rfl⟩

theorem c3_trailing_empty_division_dropped_witness :
    divsGo 10 ("ab#".toList) = some (expectedDivs ("ab#".toList)) ∧
    expectedDivs ("ab#".toList) = [("ab".toList)] := by
  constructor
  · exact c3_trailing_empty_division_dropped.1 10 ("ab#".toList) (by decide) (by decide)
  · decide

/-! ## Routing equations for single branches -/

theorem dispatch_eq_namePartBranch {m : Mapper} {base : PathElement} {s dv}
    (hb : base.element = ("mods:namePart".toList)) :
    dispatch m base s dv = namePartBranch m base dv := by
  obtain ⟨el, attrs, dat⟩ := base
  dsimp only at hb
  subst hb
  rfl

theorem dispatch_eq_nameBranch {m : Mapper} {base : PathElement} {s dv}
    (hb : base.element = ("mods:name".toList)) :
    dispatch m base s dv = nameBranch m base s dv := by
  obtain ⟨el, attrs, dat⟩ := base
  dsimp only at hb
  subst hb
  rfl

theorem dispatch_eq_titleBranch {m : Mapper} {base : PathElement} {s dv}
    (hb : base.element = ("mods:titleInfo".toList)) :
    dispatch m base s dv = titleBranch m base s dv := by
  obtain ⟨el, attrs, dat⟩ := base
  dsimp only at hb
  subst hb
  rfl

theorem dispatch_eq_subjectBranch {m : Mapper} {base : PathElement} {s dv}
    (hb : base.element = ("mods:subject".toList)) :
    dispatch m base s dv = subjectBranch m base s dv := by
  obtain ⟨el, attrs, dat⟩ := base
  dsimp only at hb
  subst hb
  rfl

theorem mapME_total {α β : Type} {f : α → Except MapErr β} (l : List α)
    (h : ∀ a ∈ l, ∃ b, f a = .ok b) : ∃ res, mapME f l = .ok res := by
  induction l with
  | nil => exact ⟨[], rfl⟩
  | cons a rest ih =>
    obtain ⟨b, hb⟩ := h a (List.mem_cons_self a rest)
    obtain ⟨res, hres⟩ := ih (fun x hx => h x (List.mem_cons_of_mem a hx))
    exact ⟨b :: res, by unfold mapME; rw [hb, hres]⟩

/-- C8: the bare `mods:namePart` category is exempt from the first-touch
reset — it never clears the names collection (nothing is cleared at all),
it appends one name part (with optional type from the base attribute) to
the most recently added name, and when the document has no names the call
fails with a plain `IndexError` (not the unhandled-element or
malformed-path failure). -/
theorem c8_bare_namepart_exempt :
    (∀ (fuel : Nat) (m : Mapper) (path data : Str) (m' : Mapper) (p : ParsedLoc),
      parseLoc path = .ok p → p.base.element = ("mods:namePart".toList) →
      addData fuel m path data = some (.ok m') →
      m'.cleared = m.cleared ∧
      ∃ nm dvs divs v, dataValsOf fuel p.hasSectionedData data = some dvs ∧
        dvs[0]? = some divs ∧ divs[0]? = some v ∧
        m.mods.names.getLast? = some nm ∧
        m'.mods.names = m.mods.names.dropLast ++
          [{nm with name_parts := nm.name_parts ++
              [{text := some v, type := dictGet p.base.attributes ("type".toList)}]}]) ∧
    (∀ (fuel : Nat) (m : Mapper) (path data : Str) (p : ParsedLoc) dvs,
      parseLoc path = .ok p → p.base.element = ("mods:namePart".toList) →
      m.mods.names = [] → dataValsOf fuel p.hasSectionedData data = some dvs →
      addData fuel m path data = some (.error .indexError)) := by
  constructor
  · intro fuel m path data m' p hp hb had
    unfold addData at had
    simp only [hp] at had
    cases hdv : dataValsOf fuel p.hasSectionedData data with
    | none => simp [hdv] at had
    | some dvs =>
      simp only [hdv, Option.some.injEq] at had
      rw [dispatch_eq_namePartBranch hb] at had
      obtain ⟨nm, divs, v, hlast, hdvs0, hv, hm⟩ := namePartBranch_spec had
      subst hm
      exact ⟨rfl, nm, dvs, divs, v, rfl, hdvs0, hv, hlast, rfl⟩
  · intro fuel m path data p dvs hp hb hnil hdv
    unfold addData
    simp only [hp, hdv]
    rw [dispatch_eq_namePartBranch hb]
    unfold namePartBranch
    rw [hnil]
    rfl

def c8name : Name :=
  { type := some ("personal".toList),
    name_parts := [{text := some ("Smith".toList), type := none}], roles := [] }

def c8m : Mapper := {mods := {emptyMods with names := [c8name]}, cleared := noCleared}

def c8res : Mapper :=
  match addData 5 c8m ("<mods:namePart type=\"date\">".toList) ("1799-1889".toList) with
  | some (.ok m) => m
  | _ => initMapper none

def c8parsed : ParsedLoc :=
  match parseLoc ("<mods:namePart type=\"date\">".toList) with
  | .ok p => p
  | .error _ => ⟨⟨[], [], none⟩, [], false⟩

theorem c8_bare_namepart_exempt_witness :
    (c8res.cleared = c8m.cleared ∧
      ∃ nm dvs divs v,
        dataValsOf 5 c8parsed.hasSectionedData ("1799-1889".toList) = some dvs ∧
        dvs[0]? = some divs ∧ divs[0]? = some v ∧
        c8m.mods.names.getLast? = some nm ∧
        c8res.mods.names = c8m.mods.names.dropLast ++
          [{nm with name_parts := nm.name_parts ++
              [{text := some v, type := dictGet c8parsed.base.attributes ("type".toList)}]}]) ∧
    addData 5 (initMapper none) ("<mods:namePart type=\"date\">".toList)
      ("1799-1889".toList) = some (.error .indexError) := by
  constructor
  · exact c8_bare_namepart_exempt.1 5 c8m ("<mods:namePart type=\"date\">".toList)
      ("1799-1889".toList) c8res c8parsed rfl rfl rfl
  · exact c8_bare_namepart_exempt.2 5 (initMapper none)
      ("<mods:namePart type=\"date\">".toList) ("1799-1889".toList) c8parsed
      [[("1799-1889".toList)]] rfl rfl rfl rfl

theorem nameSectionStep_total (dvs : List Str) (idx : Nat) (name : Name)
    (sec : PathSection) (hsec : sec ≠ []) :
    ∃ n', nameSectionStep dvs idx name sec = .ok n' := by
  cases ht : pyTruthy ((dvs[idx]?).map pStrip)
  · cases sec with
    | nil => exact absurd rfl hsec
    | cons e0 rest =>
      by_cases hr : e0.element = ("mods:role".toList)
      · refine ⟨(e0 :: rest).foldl (procNameElement ((dvs[idx]?).map pStrip)) name, ?_⟩
        simp only [nameSectionStep, ht, eq_self_iff_true, if_true, ite_true]
        rw [if_pos hr]
      · refine ⟨name, ?_⟩
        simp only [nameSectionStep, ht, eq_self_iff_true, if_true, ite_true]
        rw [if_neg hr]
  · refine ⟨sec.foldl (procNameElement ((dvs[idx]?).map pStrip)) name, ?_⟩
    simp only [nameSectionStep, ht, Bool.true_eq_false, if_false, ite_false]

theorem mkNameGo_total (dvs : List Str) (secs : List PathSection)
    (hsecs : ∀ sec ∈ secs, sec ≠ []) :
    ∀ (idx : Nat) (name : Name), ∃ n', mkNameGo dvs idx name secs = .ok n' := by
  induction secs with
  | nil => exact fun idx name => ⟨name, rfl⟩
  | cons sec rest ih =>
    intro idx name
    obtain ⟨n1, h1⟩ := nameSectionStep_total dvs idx name sec
      (hsecs sec (List.mem_cons_self sec rest))
    obtain ⟨n2, h2⟩ := ih (fun q hq => hsecs q (List.mem_cons_of_mem sec hq)) (idx + 1) n1
    exact ⟨n2, by unfold mkNameGo; rw [h1]; exact h2⟩

theorem procSubjectSection_total (s : Subject) (e0 : PathElement)
    (rest : PathSection) (div : Str)
    (hh : e0.element = ("mods:topic".toList) ∨ e0.element = ("mods:temporal".toList) ∨
      e0.element = ("mods:geographic".toList)) :
    ∃ s', procSubjectSection s (e0 :: rest) div = .ok s' := by
  simp only [procSubjectSection]
  rcases hh with h | h | h
  · exact ⟨{s with topic_list := s.topic_list ++ [{text := div}]}, by rw [if_pos h]⟩
  · refine ⟨{s with temporal_list := s.temporal_list ++ [{text := div}]}, ?_⟩
    rw [if_neg (by rw [h]; decide), if_pos h]
  · refine ⟨{s with geographic := some div}, ?_⟩
    rw [if_neg (by rw [h]; decide), if_neg (by rw [h]; decide), if_pos h]

theorem subjGo_total (s : Subject) (pairs : List (PathSection × Str))
    (hh : ∀ pr ∈ pairs, ∃ e0 rest, pr.1 = e0 :: rest ∧
      (e0.element = ("mods:topic".toList) ∨ e0.element = ("mods:temporal".toList) ∨
       e0.element = ("mods:geographic".toList))) :
    ∃ s', subjGo s pairs = .ok s' := by
  induction pairs generalizing s with
  | nil => exact ⟨s, rfl⟩
  | cons pr rest ih =>
    obtain ⟨e0, r0, hpr, hel⟩ := hh pr (List.mem_cons_self pr rest)
    obtain ⟨s1, h1⟩ : ∃ s1, procSubjectSection s pr.1 pr.2 = .ok s1 := by
      rw [hpr]
      exact procSubjectSection_total s e0 r0 pr.2 hel
    obtain ⟨s2, h2⟩ := ih s1 (fun q hq => hh q (List.mem_cons_of_mem pr hq))
    exact ⟨s2, by unfold subjGo; rw [h1]; exact h2⟩

/-- C2 (amended): missing divisions are not an error for the categories
that guard or truncate the alignment — `mods:name` (lookup in a
`try/except`), `mods:titleInfo` and `mods:subject` (zip truncation) always
succeed regardless of how few divisions an entry has — but for
`mods:originInfo` and `mods:physicalDescription` the per-section division
subscript is unguarded, so an entry with fewer divisions than the path has
sections makes the `addData` call fail with an `IndexError`. -/
theorem c2_missing_divisions_mixed :
    (∀ (m : Mapper) (base : PathElement) (s : List PathSection) (dv : List (List Str)),
      base.element = ("mods:name".toList) → (∀ sec ∈ s, sec ≠ []) →
      ∃ m', dispatch m base s dv = .ok m') ∧
    (∀ (m : Mapper) (base : PathElement) (s : List PathSection) (dv : List (List Str)),
      base.element = ("mods:titleInfo".toList) →
      ∃ m', dispatch m base s dv = .ok m') ∧
    (∀ (m : Mapper) (base : PathElement) (s : List PathSection) (dv : List (List Str)),
      base.element = ("mods:subject".toList) →
      (∀ sec ∈ s, ∃ e0 rest, sec = e0 :: rest ∧
        (e0.element = ("mods:topic".toList) ∨ e0.element = ("mods:temporal".toList) ∨
         e0.element = ("mods:geographic".toList))) →
      ∃ m', dispatch m base s dv = .ok m') ∧
    addData 50 (initMapper none)
      ("<mods:originInfo><mods:dateCreated>#<mods:dateIssued>".toList)
      ("2020".toList) = some (.error .indexError) ∧
    addData 50 (initMapper none)
      ("<mods:physicalDescription><mods:extent>#<mods:note>".toList)
      ("1 file".toList) = some (.error .indexError) := by
  refine ⟨?_, ?_, ?_, rfl, rfl⟩
  · intro m base s dv hb hsecs
    rw [dispatch_eq_nameBranch hb]
    obtain ⟨ns, hns⟩ := mapME_total (f := mkName base s) dv
      (fun divs _ => mkNameGo_total divs s hsecs 0 _)
    exact ⟨_, by unfold nameBranch; rw [show newNames base s dv = .ok ns from hns]⟩
  · intro m base s dv hb
    rw [dispatch_eq_titleBranch hb]
    exact ⟨_, rfl⟩
  · intro m base s dv hb hsecs
    rw [dispatch_eq_subjectBranch hb]
    obtain ⟨ss, hss⟩ := mapME_total (f := mkSubject base s) dv
      (fun divs _ => subjGo_total _ (List.zip s divs)
        (fun pr hpr => hsecs pr.1 (List.of_mem_zip hpr).1))
    exact ⟨_, by unfold subjectBranch; rw [show newSubjects base s dv = .ok ss from hss]⟩

theorem c2_missing_divisions_mixed_witness :
    (∃ m', dispatch (initMapper none)
      ⟨("mods:name".toList), [], none⟩
      [[⟨("mods:namePart".toList), [], none⟩], [⟨("mods:role".toList), [], none⟩]]
      [[("Smith".toList)]] = .ok m') ∧
    (∃ m', dispatch (initMapper none)
      ⟨("mods:subject".toList), [], none⟩
      [[⟨("mods:topic".toList), [], none⟩], [⟨("mods:topic".toList), [], none⟩]]
      [[("just one".toList)]] = .ok m') := by
  constructor
  · exact c2_missing_divisions_mixed.1 (initMapper none) _ _ _ rfl (by decide)
  · exact c2_missing_divisions_mixed.2.2.1 (initMapper none) _ _ _ rfl
      (by
        intro sec hsec
        simp only [List.mem_cons, List.not_mem_nil, or_false] at hsec
        rcases hsec with h | h <;>
          exact ⟨⟨("mods:topic".toList), [], none⟩, [], by rw [h], Or.inl rfl⟩)

/-- C2 counterexample: an origin-info path with two sections fed an entry
with a single division fails with an `IndexError` — missing divisions ARE
an error for this category, contrary to the claim. -/
theorem c2_counterexample :
    addData 50 (initMapper none)
      ("<mods:originInfo><mods:dateCreated>#<mods:dateIssued>".toList)
      ("2020".toList) = some (.error .indexError) ∧
    some (Except.error (MapErr.indexError) : Except MapErr Mapper) ≠
      none ∧ (MapErr.indexError ≠ MapErr.unhandledOriginInfo []) := by
  exact ⟨rfl, by simp, by decide⟩

/-- The origin-info sub-elements `_add_origin_info_data` recognizes. -/
def originSubTags : List Str :=
  ["mods:dateCreated".toList, "mods:dateIssued".toList, "mods:dateCaptured".toList,
   "mods:dateValid".toList, "mods:dateModified".toList, "mods:copyrightDate".toList,
   "mods:dateOther".toList, "mods:place".toList, "mods:publisher".toList]

/-- C6: closed-world dispatch.  A call whose base element is not one of
the fifteen recognized tags fails with the unhandled-element error
carrying the offending base element (the source logs the element and
raises); inside origin-info, a section whose first element is not one of
the recognized date/place/publisher sub-elements fails with the
unhandled-origin-info error carrying the offending section, provided the
aligned division is present and non-empty.  In the embedding both
failures are values returned by the single `add_data` call. -/
theorem c6_closed_world_errors :
    (∀ (fuel : Nat) (m : Mapper) (path data : Str) (p : ParsedLoc)
        (dvs : List (List Str)),
      parseLoc path = .ok p → p.base.element ∉ recognizedTags →
      dataValsOf fuel p.hasSectionedData data = some dvs →
      addData fuel m path data = some (.error (.unhandledElement p.base))) ∧
    (∀ (divs : List Str) (idx : Nat) (oi : OriginInfo) (e0 : PathElement)
        (rest : PathSection) (d : Str),
      e0.element ∉ originSubTags → divs[idx]? = some d → d ≠ [] →
      originSectionStep divs idx oi (e0 :: rest) =
        .error (.unhandledOriginInfo (e0 :: rest))) := by
  constructor
  · intro fuel m path data p dvs hp hb hdv
    unfold addData
    simp only [hp, hdv]
    rw [dispatch_unhandled hb]
  · intro divs idx oi e0 rest d hb hd hdne
    have h : ∀ t : Str, t ∈ originSubTags → e0.element ≠ t :=
      fun t ht he => hb (he ▸ ht)
    have h1 : e0.element ≠ ("mods:dateCreated".toList) := h _ (by simp [originSubTags])
    have h2 : e0.element ≠ ("mods:dateIssued".toList) := h _ (by simp [originSubTags])
    have h3 : e0.element ≠ ("mods:dateCaptured".toList) := h _ (by simp [originSubTags])
    have h4 : e0.element ≠ ("mods:dateValid".toList) := h _ (by simp [originSubTags])
    have h5 : e0.element ≠ ("mods:dateModified".toList) := h _ (by simp [originSubTags])
    have h6 : e0.element ≠ ("mods:copyrightDate".toList) := h _ (by simp [originSubTags])
    have h7 : e0.element ≠ ("mods:dateOther".toList) := h _ (by simp [originSubTags])
    have h8 : e0.element ≠ ("mods:place".toList) := h _ (by simp [originSubTags])
    have h9 : e0.element ≠ ("mods:publisher".toList) := h _ (by simp [originSubTags])
    unfold originSectionStep
    simp only [hd]
    rw [if_neg (by simpa using hdne)]
    rw [if_neg h1, if_neg h2, if_neg h3, if_neg h4, if_neg h5, if_neg h6, if_neg h7,
      if_neg h8, if_neg h9]

def c6parsed : ParsedLoc :=
  match parseLoc ("<mods:wizard>".toList) with
  | .ok p => p
  | .error _ => ⟨⟨[], [], none⟩, [], false⟩

theorem c6_closed_world_errors_witness :
    addData 5 (initMapper none) ("<mods:wizard>".toList) ("x".toList) =
      some (.error (.unhandledElement c6parsed.base)) ∧
    originSectionStep [("1999".toList)] 0 emptyOriginInfo
        (⟨("mods:frobnicate".toList), [], none⟩ :: []) =
      .error (.unhandledOriginInfo [⟨("mods:frobnicate".toList), [], none⟩]) := by
  constructor
  · exact c6_closed_world_errors.1 5 (initMapper none) ("<mods:wizard>".toList)
      ("x".toList) c6parsed [[("x".toList)]] rfl (by decide) rfl
  · exact c6_closed_world_errors.2 [("1999".toList)] 0 emptyOriginInfo
      ⟨("mods:frobnicate".toList), [], none⟩ [] ("1999".toList) (by decide) rfl
      (by decide)

def c5smith : Name :=
  { type := some ("personal".toList),
    name_parts := [{text := some ("Smith".toList), type := none}],
    roles := [{text := ("creator".toList), type := none, authority := none}] }

def c5jones : Name :=
  { type := some ("personal".toList),
    name_parts := [{text := some ("Jones, T.".toList), type := none}],
    roles := [] }

/-- C5: the name category.  `"Smith#creator||Jones, T."` against a
name-plus-role path (a namePart section followed by a role/roleTerm
section with no inline role data) yields exactly two names: Smith with
role text `"creator"`, and Jones with no role.  In general a section whose
aligned division is empty or absent is skipped — except a role section,
which is still processed and takes its role text from inline literal data
when the path carries it. -/
theorem c5_name_role_entries :
    addData 20 (initMapper none)
      ("<mods:name type=\"personal\"><mods:namePart>#<mods:role><mods:roleTerm>".toList)
      ("Smith#creator||Jones, T.".toList) =
      some (.ok ⟨{emptyMods with names := [c5smith, c5jones]},
                 {noCleared with names := true}⟩) ∧
    (∀ (dvs : List Str) (idx : Nat) (name : Name) (e0 : PathElement)
        (rest : PathSection),
      pyTruthy ((dvs[idx]?).map pStrip) = false →
      e0.element ≠ ("mods:role".toList) →
      nameSectionStep dvs idx name (e0 :: rest) = .ok name) ∧
    (∀ (name : Name) (attrs attrs2 : List (Str × Str)) (c : Char) (cs : Str)
        (dvs : List Str) (idx : Nat),
      dvs[idx]? = none →
      nameSectionStep dvs idx name
        [⟨("mods:role".toList), attrs, none⟩,
         ⟨("mods:roleTerm".toList), attrs2, some (c :: cs)⟩] =
        .ok {name with roles := name.roles ++
          [{text := c :: cs, type := dictGet attrs2 ("type".toList),
            authority := dictGet attrs2 ("authority".toList)}]}) := by
  refine ⟨rfl, ?_, ?_⟩
  · intro dvs idx name e0 rest ht hrole
    simp only [nameSectionStep, ht, eq_self_iff_true, if_true, ite_true]
    rw [if_neg hrole]
  · intro name attrs attrs2 c cs dvs idx hnone
    simp only [nameSectionStep, hnone, Option.map_none', pyTruthy, eq_self_iff_true,
      if_true, ite_true]
    simp only [List.foldl_cons, List.foldl_nil]
    have hnp1 : ¬(("mods:role".toList : Str) = ("mods:namePart".toList)) := by decide
    have hnp2 : ¬(("mods:role".toList : Str) = ("mods:roleTerm".toList)) := by decide
    have hnp3 : ¬(("mods:roleTerm".toList : Str) = ("mods:namePart".toList)) := by decide
    have hrole : procNameElement none name ⟨("mods:role".toList), attrs, none⟩ = name := by
      unfold procNameElement
      rw [if_neg (fun h => absurd h.1 hnp1), if_neg (fun h => absurd h.1 hnp1),
        if_neg hnp2]
    rw [hrole]
    unfold procNameElement
    rw [if_neg (fun h => absurd h.1 hnp3), if_neg (fun h => absurd h.1 hnp3),
      if_pos (rfl : ("mods:roleTerm".toList : Str) = ("mods:roleTerm".toList))]
    rfl

theorem c5_name_role_entries_witness :
    nameSectionStep [("Smith".toList)] 1 c5jones
      [⟨("mods:namePart".toList), [], none⟩] = .ok c5jones ∧
    nameSectionStep [("Smith".toList)] 1 c5smith
      [⟨("mods:role".toList), [], none⟩,
       ⟨("mods:roleTerm".toList), [], some ("winner".toList)⟩] =
      .ok {c5smith with roles := c5smith.roles ++
        [{text := ("winner".toList), type := none, authority := none}]} := by
  constructor
  · exact c5_name_role_entries.2.1 [("Smith".toList)] 1 c5jones
      ⟨("mods:namePart".toList), [], none⟩ [] rfl (by decide)
  · exact c5_name_role_entries.2.2 c5smith [] [] 'w' ("inner".toList)
      [("Smith".toList)] 1 rfl

/-- The hierarchical-geographic value the country branch builds: country
from the inline-data slot, state from the division only when a state
element follows. -/
def c4hg (dat1 : Option Str) (e2 : PathElement) (div : Str) : HierarchicalGeographic :=
  if e2.element = ("mods:state".toList) then {country := dat1, state := some div}
  else {country := dat1, state := none}

def c4subject : Subject :=
  { authority := none, topic_list := [], temporal_list := [], geographic := none,
    hierarchical_geographic :=
      some {country := some ("United States".toList),
            state := some ("Pennsylvania".toList)} }

/-- C4: the hierarchicalGeographic country never falls back to the aligned
division.  The source's membership test (`'data' in section[1]`) is always
true, because every parsed element dict carries the `'data'` key, so the
country is always set from the inline-data slot (possibly `None`) — the
`else` arm assigning the division is dead code — and `section[2]` is then
read unconditionally, so a country section with no third element makes the
call fail with an `IndexError`.  First conjunct: the claim's fallback
scenario (no inline data) crashes instead of using the division.  Second
conjunct: for any section of shape hierarchicalGeographic/country/e2 the
country is `section[1]`'s inline-data slot, never the division, and the
division only reaches the state (when `e2` is a state element).  Third
conjunct: the shape the repo's test exercises (inline country data plus a
state element) works as its test expects. -/
theorem c4_hierarchical_geographic_bug :
    addData 20 (initMapper none)
      ("<mods:subject><mods:hierarchicalGeographic><mods:country>".toList)
      ("France".toList) = some (.error .indexError) ∧
    (∀ (s : Subject) (attrs attrs1 : List (Str × Str)) (dat1 : Option Str)
        (e2 : PathElement) (rest : PathSection) (div : Str),
      procSubjectSection s
        (⟨("mods:hierarchicalGeographic".toList), attrs, none⟩ ::
         ⟨("mods:country".toList), attrs1, dat1⟩ :: e2 :: rest) div =
        .ok {s with hierarchical_geographic := some (c4hg dat1 e2 div)}) ∧
    addData 20 (initMapper none)
      ("<mods:subject><mods:hierarchicalGeographic><mods:country>United States</mods:country><mods:state>".toList)
      ("Pennsylvania".toList) =
      some (.ok ⟨{emptyMods with subjects := [c4subject]},
                 {noCleared with subjects := true}⟩) := by
  have h1 : ¬(("mods:hierarchicalGeographic".toList : Str) = ("mods:topic".toList)) := by
    decide
  have h2 : ¬(("mods:hierarchicalGeographic".toList : Str) = ("mods:temporal".toList)) := by
    decide
  have h3 : ¬(("mods:hierarchicalGeographic".toList : Str) =
      ("mods:geographic".toList)) := by decide
  refine ⟨rfl, ?_, rfl⟩
  intro s attrs attrs1 dat1 e2 rest div
  simp only [procSubjectSection, c4hg]
  rw [if_neg h1, if_neg h2, if_neg h3]
  simp only [List.getElem?_cons_succ, List.getElem?_cons_zero, eq_self_iff_true,
    if_true, ite_true]

def c9parsed : ParsedLoc :=
  match parseLoc ("<mods:note>".toList) with
  | .ok p => p
  | .error _ => ⟨⟨[], [], none⟩, [], false⟩

def c9res : Mapper :=
  match addData 10 (initMapper none) ("<mods:note>".toList) ("x|| ||y".toList) with
  | some (.ok m) => m
  | _ => initMapper none

theorem c9_empty_entries_dropped_witness :
    c9res.mods.notes.length = 0 + (splitEntries ("x|| ||y".toList)).length ∧
    (splitEntries ("x|| ||y".toList)).length = 2 := by
  constructor
  · exact c9_empty_entries_dropped.2.2.2 10 (initMapper none) ("<mods:note>".toList)
      ("x|| ||y".toList) c9res c9parsed rfl rfl rfl
  · decide

/-! ## C7: when does the parser raise? -/

/-- `true` on the `.error` constructor. -/
def exErr {e a : Type} : Except e a → Bool
  | .error _ => true
  | .ok _ => false

/-- Failure recognizer for the `_parse_attributes` loop: `true` iff the
loop on this (already stripped) text raises, i.e. iff it reaches a state
where no further quoted value is found (`valEnd > valStart` fails). -/
def attrsReject (fuel : Nat) (data : Str) : Bool :=
  match fuel with
  | 0 => true
  | fuel + 1 =>
    if data = [] then false
    else
      let equal := findChar '=' data
      let valStart := findFrom '"' data (optInt equal + 1).toNat
      let valEnd := findFrom '"' data (optInt valStart + 1).toNat
      if optInt valEnd > optInt valStart then
        attrsReject fuel (pStrip (data.drop ((optInt valEnd).toNat + 1)))
      else true

/-- Failure recognizer for `_parse_attributes` on raw attribute text. -/
def attributesReject (data0 : Str) : Bool :=
  let d := pStrip data0
  attrsReject (d.length + 1) d

/-- Failure recognizer for splitting one extracted tag: only its
attribute text can be rejected. -/
def tagReject (tag : Str) : Bool :=
  let space := findChar ' ' tag
  if optInt space > 0 then attributesReject (pySlice tag (optInt space) (-1))
  else false

/-- Failure recognizer for the section loop of `_parse`: the remaining
text is rejected iff its first `>` does not come strictly after its first
`<` (a missing or out-of-place tag), or the tag's attributes are
rejected, or the loop rejects what is left after the tag and its inline
text. -/
def secReject (fuel : Nat) (sec : Str) : Bool :=
  match fuel with
  | 0 => true
  | fuel + 1 =>
    if sec = [] then false
    else
      let s := findChar '<' sec
      let e := findChar '>' sec
      if optInt e > optInt s then
        let tag := pySlice sec (optInt s) (optInt e + 1)
        let sec1 := sec.drop ((optInt e).toNat + 1)
        if pySlice tag 0 2 = ['<', '/'] then secReject fuel sec1
        else if tagReject tag then true
        else
          let ts :=
            if sec1 = [] then ((none : Option Str), sec1)
            else
              match findChar '<' sec1 with
              | some 0 => (none, sec1)
              | none => (some sec1, ([] : Str))
              | some (k + 1) => (some (sec1.take (k + 1)), sec1.drop (k + 1))
          secReject fuel ts.2
      else true

/-- Failure recognizer for one `#`-separated section piece. -/
def sectionReject (piece : Str) : Bool :=
  secReject (piece.length + 1) piece

/-- Failure recognizer for the whole parser: mirror of the `raise` sites
of `LocationParser`.  A path is rejected iff it is whitespace-only, or
its first character is not `<`, or the base tag has no closer `>` after
its opener, or some attribute scan gets stuck, or some nonempty
`#`-section piece is rejected by `secReject`. -/
def pathRejects (raw : Str) : Bool :=
  let data := pStrip raw
  match data with
  | [] => true
  | c :: _ =>
    if c = '<' then
      let startTagPos := findChar '<' data
      let endTagPos := findChar '>' data
      if optInt endTagPos > optInt startTagPos then
        let tag := pySlice data (optInt startTagPos) (optInt endTagPos + 1)
        if tagReject tag then true
        else
          let rest := data.drop ((optInt endTagPos).toNat + 1)
          if rest = [] then false
          else (splitChar '#' rest).any sectionReject
      else true
    else true

/-- The claim of the specification, taken at its word: the first
non-whitespace character is `<`, every tag opened by `<` has a matching
closer `>`, and inside every such tag the quotes of attribute values
pair up.  (Used only to exhibit a concrete well-formed input that the
code nevertheless rejects.) -/
def claimScanTags (fuel : Nat) (rest : Str) : Bool :=
  match fuel with
  | 0 => false
  | fuel + 1 =>
    match findChar '<' rest with
    | none => true
    | some i =>
      match findFrom '>' rest i with
      | none => false
      | some j =>
        ((((rest.take j).drop i).filter (fun c => c = '"')).length % 2 = 0)
          && claimScanTags fuel (rest.drop (j + 1))

/-- The three well-formedness conditions named by the claim. -/
def claimWellFormed (raw : Str) : Bool :=
  let data := pStrip raw
  match data with
  | [] => false
  | c :: _ => (c = '<') && claimScanTags (data.length + 1) data


/-- `dropWhile` never lengthens a list. -/
theorem dropWhile_len_le (p : Char → Bool) : ∀ t : Str, (t.dropWhile p).length ≤ t.length := by
  intro t
  induction t with
  | nil => simp
  | cons a t ih =>
    by_cases h : p a
    · simp only [List.dropWhile, h, List.length_cons]
      omega
    · simp [List.dropWhile, h]

/-- `str.strip()` never lengthens a string. -/
theorem pStrip_length_le (s : Str) : (pStrip s).length ≤ s.length := by
  simp only [pStrip, List.length_reverse]
  exact le_trans (dropWhile_len_le _ _)
    (le_trans (le_of_eq (List.length_reverse _)) (dropWhile_len_le _ _))

/-- With fuel above the length of its input the attribute loop never
runs out: each iteration strictly shrinks the string. -/
theorem parseAttrsGo_no_fuel :
    ∀ (fuel : Nat) (data : Str) (acc : List (Str × Str)),
      data.length < fuel → parseAttrsGo fuel data acc ≠ .error .fuelExhausted := by
  intro fuel
  induction fuel with
  | zero => intro data acc h; exact absurd h (Nat.not_lt_zero _)
  | succ n ih =>
    intro data acc h
    by_cases hd : data = []
    · simp [parseAttrsGo, hd]
    · simp only [parseAttrsGo, if_neg hd]
      split
      · apply ih
        apply lt_of_le_of_lt (pStrip_length_le _)
        rw [List.length_drop]
        have h2 : 0 < data.length := List.length_pos.mpr hd
        omega
      · simp

/-- `_parse_attributes` never runs out of fuel. -/
theorem parseAttributes_no_fuel (d : Str) : parseAttributes d ≠ .error .fuelExhausted := by
  unfold parseAttributes
  exact parseAttrsGo_no_fuel _ _ _ (Nat.lt_succ_self _)

/-- Splitting one tag never runs out of fuel. -/
theorem parseTagNameAttrs_no_fuel (tag : Str) :
    parseTagNameAttrs tag ≠ .error .fuelExhausted := by
  simp only [parseTagNameAttrs]
  split
  · cases hpa : parseAttributes (pySlice tag (optInt (findChar ' ' tag)) (-1)) with
    | error e =>
      simp only [hpa]
      intro hcontra
      injection hcontra with h2
      exact parseAttributes_no_fuel _ (by rw [hpa, h2])
    | ok attrs => simp [hpa]
  · simp

/-- With fuel above the length of its input the section loop never runs
out: each iteration strictly shrinks the string. -/
theorem secLoopGo_no_fuel :
    ∀ (fuel : Nat) (sec : Str) (acc : List PathElement),
      sec.length < fuel → secLoopGo fuel sec acc ≠ .error .fuelExhausted := by
  intro fuel
  induction fuel with
  | zero => intro sec acc h; exact absurd h (Nat.not_lt_zero _)
  | succ n ih =>
    intro sec acc h
    by_cases hs : sec = []
    · simp [secLoopGo, hs]
    · have h2 : 0 < sec.length := List.length_pos.mpr hs
      simp only [secLoopGo, if_neg hs]
      split
      · split
        · apply ih
          rw [List.length_drop]
          omega
        · split
          next er htg =>
            intro hcontra
            injection hcontra with h3
            exact parseTagNameAttrs_no_fuel _ (by rw [htg, h3])
          next name attrs htg =>
            apply ih
            split
            next h4 =>
              rw [List.length_drop]
              omega
            next h4 =>
              split
              next h5 =>
                rw [List.length_drop]
                omega
              next h5 =>
                simp only [List.length_nil]
                omega
              next k h5 =>
                simp only [List.length_drop]
                omega
      · simp

/-- One section piece never runs out of fuel. -/
theorem parseSection_no_fuel (p : Str) : parseSection p ≠ .error .fuelExhausted := by
  unfold parseSection
  exact secLoopGo_no_fuel _ _ _ (Nat.lt_succ_self _)

/-- The section list never runs out of fuel. -/
theorem parseSectionsGo_no_fuel : ∀ ps : List Str,
    parseSectionsGo ps ≠ .error .fuelExhausted := by
  intro ps
  induction ps with
  | nil => simp [parseSectionsGo]
  | cons p rest ih =>
    cases hp : parseSection p with
    | error e =>
      simp only [parseSectionsGo, hp]
      intro hcontra
      injection hcontra with h2
      exact parseSection_no_fuel p (by rw [hp, h2])
    | ok els =>
      cases hr : parseSectionsGo rest with
      | error e2 =>
        simp only [parseSectionsGo, hp, hr]
        intro hcontra
        injection hcontra with h2
        exact ih (by rw [hr, h2])
      | ok secs => simp [parseSectionsGo, hp, hr]

/-- `_parse_base_element` never runs out of fuel. -/
theorem parseBase_no_fuel (data : Str) : parseBase data ≠ .error .fuelExhausted := by
  simp only [parseBase]
  split
  · split
    next e htg =>
      intro hcontra
      injection hcontra with h2
      exact parseTagNameAttrs_no_fuel _ (by rw [htg, h2])
    next pr htg => simp
  · simp

/-- The parser as a whole never runs out of fuel: `length + 1` is enough
for every loop, so the `fuelExhausted` constructor of the embedding is
unreachable and `parseLoc` is total in the same sense as the Python. -/
theorem parseLoc_no_fuel (raw : Str) : parseLoc raw ≠ .error .fuelExhausted := by
  cases hdata : pStrip raw with
  | nil => simp [parseLoc, hdata]
  | cons c t =>
    simp only [parseLoc, hdata]
    split
    · split
      next e hb =>
        intro hcontra
        injection hcontra with h2
        exact parseBase_no_fuel _ (by rw [hb, h2])
      next base rest hb =>
        split
        · simp
        · split
          next e2 hsec =>
            intro hcontra
            injection hcontra with h2
            exact parseSectionsGo_no_fuel _ (by rw [hsec, h2])
          next secs hsec => simp
    · simp

/-- The attribute loop raises exactly when `attrsReject` says so. -/
theorem attrsAlign : ∀ (fuel : Nat) (data : Str) (acc : List (Str × Str)),
    exErr (parseAttrsGo fuel data acc) = attrsReject fuel data := by
  intro fuel
  induction fuel with
  | zero => intro data acc; rfl
  | succ n ih =>
    intro data acc
    by_cases hd : data = []
    · simp [parseAttrsGo, attrsReject, hd, exErr]
    · simp only [parseAttrsGo, attrsReject, if_neg hd]
      split
      next hc => exact ih _ _
      next hc => rfl

/-- `_parse_attributes` raises exactly when `attributesReject` says so. -/
theorem attributesAlign (d : Str) : exErr (parseAttributes d) = attributesReject d := by
  unfold parseAttributes attributesReject
  exact attrsAlign _ _ _

/-- Splitting a tag raises exactly when `tagReject` says so. -/
theorem tagAlign (tag : Str) : exErr (parseTagNameAttrs tag) = tagReject tag := by
  simp only [parseTagNameAttrs, tagReject]
  split
  · rw [← attributesAlign]
    cases parseAttributes (pySlice tag (optInt (findChar ' ' tag)) (-1)) <;> rfl
  · rfl

/-- The section loop raises exactly when `secReject` says so. -/
theorem secAlign : ∀ (fuel : Nat) (sec : Str) (acc : List PathElement),
    exErr (secLoopGo fuel sec acc) = secReject fuel sec := by
  intro fuel
  induction fuel with
  | zero => intro sec acc; rfl
  | succ n ih =>
    intro sec acc
    by_cases hs : sec = []
    · simp [secLoopGo, secReject, hs, exErr]
    · simp only [secLoopGo, secReject, if_neg hs]
      split
      next hc =>
        split
        next hct => exact ih _ _
        next hct =>
          cases htg : parseTagNameAttrs
              (pySlice sec (optInt (findChar '<' sec)) (optInt (findChar '>' sec) + 1)) with
          | error er =>
            have h2 := tagAlign
              (pySlice sec (optInt (findChar '<' sec)) (optInt (findChar '>' sec) + 1))
            rw [htg] at h2
            simp only [exErr] at h2
            simp only [htg, ← h2, if_true, ite_true]
            rfl
          | ok pr =>
            have h2 := tagAlign
              (pySlice sec (optInt (findChar '<' sec)) (optInt (findChar '>' sec) + 1))
            rw [htg] at h2
            simp only [exErr] at h2
            obtain ⟨name, attrs⟩ := pr
            simp only [htg, ← h2, if_false, ite_false]
            exact ih _ _
      next hc => rfl

/-- One section piece raises exactly when `sectionReject` says so. -/
theorem sectionAlign (p : Str) : exErr (parseSection p) = sectionReject p := by
  unfold parseSection sectionReject
  exact secAlign _ _ _

/-- The section list raises exactly when some piece is rejected. -/
theorem sectionsAlign : ∀ ps : List Str,
    exErr (parseSectionsGo ps) = ps.any sectionReject := by
  intro ps
  induction ps with
  | nil => rfl
  | cons p rest ih =>
    simp only [parseSectionsGo, List.any_cons]
    cases hp : parseSection p with
    | error e =>
      have h2 := sectionAlign p
      rw [hp] at h2
      simp only [exErr] at h2
      simp only [hp, ← h2, exErr, Bool.true_or]
    | ok els =>
      have h2 := sectionAlign p
      rw [hp] at h2
      simp only [exErr] at h2
      cases hr : parseSectionsGo rest with
      | error e2 =>
        rw [hr] at ih
        simp only [exErr] at ih
        simp only [hp, hr, ← h2, ← ih, exErr, Bool.false_or]
      | ok secs =>
        rw [hr] at ih
        simp only [exErr] at ih
        simp only [hp, hr, ← h2, ← ih, exErr, Bool.false_or]

/-- `parseLoc` raises exactly when `pathRejects` says so. -/
theorem pathAlign (raw : Str) : exErr (parseLoc raw) = pathRejects raw := by
  cases hdata : pStrip raw with
  | nil => simp [parseLoc, pathRejects, hdata, exErr]
  | cons c t =>
    by_cases hc : c = '<'
    · simp only [parseLoc, pathRejects, hdata, if_pos hc]
      cases hb : parseBase (c :: t) with
      | error e =>
        simp only [hb, exErr]
        simp only [parseBase] at hb
        split at hb
        next hcond =>
          rw [if_pos hcond]
          cases htg : parseTagNameAttrs
              (pySlice (c :: t) (optInt (findChar '<' (c :: t)))
                (optInt (findChar '>' (c :: t)) + 1)) with
          | error er =>
            have h2 := tagAlign (pySlice (c :: t) (optInt (findChar '<' (c :: t)))
              (optInt (findChar '>' (c :: t)) + 1))
            rw [htg] at h2
            simp only [exErr] at h2
            simp only [← h2, if_true, ite_true]
          | ok pr =>
            obtain ⟨name, attrs⟩ := pr
            simp only [htg] at hb
            simp at hb
        next hcond =>
          rw [if_neg hcond]
      | ok pr =>
        obtain ⟨base, rest⟩ := pr
        simp only [hb]
        simp only [parseBase] at hb
        split at hb
        next hcond =>
          cases htg : parseTagNameAttrs
              (pySlice (c :: t) (optInt (findChar '<' (c :: t)))
                (optInt (findChar '>' (c :: t)) + 1)) with
          | error er =>
            simp only [htg] at hb
            simp at hb
          | ok pr2 =>
            obtain ⟨name, attrs⟩ := pr2
            simp only [htg] at hb
            rw [Except.ok.injEq, Prod.mk.injEq] at hb
            obtain ⟨h1, h2⟩ := hb
            have h3 := tagAlign (pySlice (c :: t) (optInt (findChar '<' (c :: t)))
              (optInt (findChar '>' (c :: t)) + 1))
            rw [htg] at h3
            simp only [exErr] at h3
            rw [if_pos hcond]
            simp only [← h3, Bool.false_eq_true, if_false, ite_false]
            rw [h2]
            split
            next hrest => rfl
            next hrest =>
              rw [← sectionsAlign]
              cases parseSectionsGo (splitChar '#' rest) <;> rfl
        next hcond =>
          simp at hb
    · simp only [parseLoc, pathRejects, hdata, if_neg hc]
      rfl

/-- C7: corrected.  The parser never fails for lack of fuel (the
embedding's loops are total, like the Python ones), and it raises exactly
when `pathRejects` holds: the claim's three conditions are not the whole
story, because inside a `#`-section any text whose first `>` is missing
or does not follow its first `<` is also rejected.  In particular the
claim's example `"asdf1234"` does fail (no tag opener). -/
theorem c7_malformed_path_failure_characterized :
    (∀ s : Str, exErr (parseLoc s) = pathRejects s) ∧
    (∀ s : Str, parseLoc s ≠ .error .fuelExhausted) ∧
    parseLoc ("asdf1234".toList) = .error .noTagOpener := by
  exact ⟨pathAlign, parseLoc_no_fuel, rfl⟩

/-- C7 witness: the characterization applied at the claim's own example,
and fuel-honesty at a parse that succeeds. -/
theorem c7_malformed_path_failure_characterized_witness :
    exErr (parseLoc ("asdf1234".toList)) = pathRejects ("asdf1234".toList) ∧
    ¬ (parseLoc ("<mods:title>".toList) = .error .fuelExhausted) := by
  exact ⟨c7_malformed_path_failure_characterized.1 ("asdf1234".toList),
    c7_malformed_path_failure_characterized.2.1 ("<mods:title>".toList)⟩

/-- C7 counterexample: `<mods:a>#b` meets all three of the claim's
well-formedness conditions (starts with `<`, its only tag is terminated,
no attribute quote is open), yet the parser raises on the section text
`b`, which contains no tag at all.  So "exactly when" is false: the
claimed conditions are not the only failure modes. -/
theorem c7_counterexample :
    claimWellFormed ("<mods:a>#b".toList) = true ∧
    parseLoc ("<mods:a>#b".toList) = .error .badSectionTag := by
  exact ⟨by decide, rfl⟩

end ModsGen